import Mathlib

/-!
The engine-ass2 viewer: prism mesh generator and interaction state machine.

A shallow embedding of `src/main.cpp` (`genVerts`, the `State` record, the event
callbacks and the "process" block of the main loop) together with the few
`glm` operations those functions call.

Conventions of the embedding.

* `float` and `double` values are elements of an ordered field `α` (exact
  arithmetic: rounding, infinities and NaN are not modelled).  The
  transcendental functions of `<cmath>` and the constant `M_PI` are supplied
  through a `CMath α` record, so that the same definitions run over `ℚ` and
  can be read over `ℝ` with `Real.sin`, `Real.cos`, `Real.sqrt`, `Real.pi`.
* `int` values are `Int`; `state.faces += 1` and `state.faces -= 1` wrap to 32
  bits (`wrapInt`).
* Calls into OpenGL / GLFW (`glNamedBufferData`, `uploadUB`, drawing) have no
  effect on the modelled state and are left out; the four matrices of
  `UniformBuffer`, which only the shader reads, are left out as well.
* `genVerts` can throw: `vertices.reserve` receives the `int`
  `faces*6 + (faces-2)*3*2`, computed with 32-bit wrap (`reserveArg`).  It is
  non-negative for `1 ≤ faces ≤ 178956971` and negative for
  `178956972 ≤ faces ≤ 357913942`, where `12*faces - 12` passes `INT_MAX`; a
  negative argument converts to a `size_t` above `max_size()` and `reserve`
  throws `std::length_error`.  Nothing in `main` catches it, so the per-frame
  update returns `Except.error` with the variables as they are at the throw,
  and `Except.ok` with the variables at the end of the block otherwise.
  Allocation itself is taken to succeed: `std::bad_alloc` is not modelled.
-/

namespace EngineAss2

/-! ## glm vectors -/

/-- The type `glm::vec2`. -/
structure Vec2 (α : Type) where
  x : α
  y : α
deriving DecidableEq, Repr

/-- The type `glm::vec3`. -/
structure Vec3 (α : Type) where
  x : α
  y : α
  z : α
deriving DecidableEq, Repr

/-- The type `glm::vec4`. -/
structure Vec4 (α : Type) where
  x : α
  y : α
  z : α
  w : α
deriving DecidableEq, Repr

/-- The functions of `<cmath>` used by the program, and `M_PI`. -/
structure CMath (α : Type) where
  sin : α → α
  cos : α → α
  sqrt : α → α
  pi : α

section Glm

variable {α : Type} [LinearOrderedField α]

/-- Scalar times vector, `s * vec2`. -/
def Vec2.smul (s : α) (v : Vec2 α) : Vec2 α := ⟨s * v.x, s * v.y⟩

/-- Component-wise `vec3 + vec3`. -/
def Vec3.add (a b : Vec3 α) : Vec3 α := ⟨a.x + b.x, a.y + b.y, a.z + b.z⟩

/-- Component-wise `vec3 - vec3`. -/
def Vec3.sub (a b : Vec3 α) : Vec3 α := ⟨a.x - b.x, a.y - b.y, a.z - b.z⟩

/-- Vector times scalar, `vec3 * s`. -/
def Vec3.scale (v : Vec3 α) (s : α) : Vec3 α := ⟨v.x * s, v.y * s, v.z * s⟩

/-- The function `glm::dot` on `vec3`. -/
def Vec3.dot (a b : Vec3 α) : α := a.x * b.x + a.y * b.y + a.z * b.z

/-- The function `glm::cross`. -/
def Vec3.cross (a b : Vec3 α) : Vec3 α :=
  ⟨a.y * b.z - b.y * a.z, a.z * b.x - b.z * a.x, a.x * b.y - b.x * a.y⟩

/-- The function `glm::normalize`: `v * inversesqrt(dot(v, v))`. -/
def Vec3.normalize (M : CMath α) (v : Vec3 α) : Vec3 α :=
  v.scale (1 / M.sqrt (v.dot v))

/-- The conversion `vec3(vec4)`: the first three components. -/
def Vec4.xyz (v : Vec4 α) : Vec3 α := ⟨v.x, v.y, v.z⟩

/-- The constructor `vec4(vec3, w)`. -/
def Vec4.ofVec3 (v : Vec3 α) (w : α) : Vec4 α := ⟨v.x, v.y, v.z, w⟩

/-- The function `glm::radians`. -/
def radians (M : CMath α) (deg : α) : α := deg * (M.pi / 180)

end Glm

/-! ## The mesh generator `genVerts` -/

/-- The record `Vertex` of `utils.hpp`. -/
structure Vertex (α : Type) where
  pos : Vec3 α
  clr : Vec4 α
  norm : Vec3 α
  uv : Vec2 α
deriving DecidableEq, Repr

/-- Two's-complement wrap of an integer to the 32 bits of `int`. -/
def wrapInt (x : Int) : Int := (x + 2147483648) % 4294967296 - 2147483648

/-- A counting loop `for (int i = lo; i < hi; i++) { push_back ... }`: `forLoop hi body n i`
runs from the current index `i` for at most `n` iterations, appending what each
iteration pushes. -/
def forLoop {β : Type} (hi : Int) (body : Int → List β) : Nat → Int → List β
  | 0, _ => []
  | n + 1, i => if i < hi then body i ++ forLoop hi body n (i + 1) else []

/-- The number of iterations after which `for (int i = lo; i < hi; i++)` has left the loop. -/
def tripCount (lo hi : Int) : Nat := (hi - lo).toNat

section Mesh

variable {α : Type} [LinearOrderedField α]

/-- The initialiser `Vertex{ .pos = p, .norm = n }`; the other members are zero. -/
def mkVertex (p n : Vec3 α) : Vertex α :=
  { pos := p, clr := ⟨0, 0, 0, 0⟩, norm := n, uv := ⟨0, 0⟩ }

/-- The constant `radius` of `genVerts`. -/
def radius : α := 1

/-- The constant `height` of `genVerts`. -/
def height : α := 1

/-- The constant `bot` of `genVerts`. -/
def bot : α := 0 - height / 2

/-- The constant `top` of `genVerts`. -/
def top : α := 0 + height / 2

/-- The circle point `radius * vec2(sin(k/faces * 2*pi), cos(k/faces * 2*pi))`, for the
numerator `k` already converted to `float`. -/
def circlePt (M : CMath α) (faces : Int) (k : α) : Vec2 α :=
  Vec2.smul radius ⟨M.sin (k / (faces : α) * 2 * M.pi), M.cos (k / (faces : α) * 2 * M.pi)⟩

/-- The local `left` of the three loops. -/
def leftPt (M : CMath α) (faces i : Int) : Vec2 α := circlePt M faces (i : α)

/-- The local `right` of the three loops. -/
def rightPt (M : CMath α) (faces i : Int) : Vec2 α := circlePt M faces ((i + 1 : Int) : α)

/-- The local `origin`, the point at angle `0.0f/faces * 2*pi`. -/
def originPt (M : CMath α) (faces : Int) : Vec2 α := circlePt M faces 0

/-- The argument of `glm::normalize` in the side loop. -/
def sideCross (M : CMath α) (faces i : Int) : Vec3 α :=
  let left := leftPt M faces i
  let right := rightPt M faces i
  Vec3.cross
    (Vec3.sub ⟨left.x, top, left.y⟩ ⟨right.x, top, right.y⟩)
    (Vec3.sub ⟨left.x, bot, left.y⟩ ⟨left.x, top, left.y⟩)

/-- The local `norm` of the side loop. -/
def sideNorm (M : CMath α) (faces i : Int) : Vec3 α :=
  Vec3.normalize M (sideCross M faces i)

/-- One iteration of the side loop: the six vertices pushed for sector `i`. -/
def sideBody (M : CMath α) (faces i : Int) : List (Vertex α) :=
  let left := leftPt M faces i
  let right := rightPt M faces i
  let norm := sideNorm M faces i
  [ mkVertex ⟨right.x, top, right.y⟩ norm,
    mkVertex ⟨left.x, top, left.y⟩ norm,
    mkVertex ⟨left.x, bot, left.y⟩ norm,
    mkVertex ⟨left.x, bot, left.y⟩ norm,
    mkVertex ⟨right.x, bot, right.y⟩ norm,
    mkVertex ⟨right.x, top, right.y⟩ norm ]

/-- One iteration of the top loop. -/
def topBody (M : CMath α) (faces i : Int) : List (Vertex α) :=
  let origin := originPt M faces
  let left := leftPt M faces i
  let right := rightPt M faces i
  let norm : Vec3 α := ⟨0, 1, 0⟩
  [ mkVertex ⟨origin.x, top, origin.y⟩ norm,
    mkVertex ⟨left.x, top, left.y⟩ norm,
    mkVertex ⟨right.x, top, right.y⟩ norm ]

/-- One iteration of the bottom loop. -/
def botBody (M : CMath α) (faces i : Int) : List (Vertex α) :=
  let origin := originPt M faces
  let left := leftPt M faces i
  let right := rightPt M faces i
  let norm : Vec3 α := ⟨0, -1, 0⟩
  [ mkVertex ⟨origin.x, bot, origin.y⟩ norm,
    mkVertex ⟨right.x, bot, right.y⟩ norm,
    mkVertex ⟨left.x, bot, left.y⟩ norm ]

/-- The side loop, `for (int i = 0; i < faces; i++)`. -/
def sideLoop (M : CMath α) (faces : Int) : List (Vertex α) :=
  forLoop faces (sideBody M faces) (tripCount 0 faces) 0

/-- The top loop, `for (int i = 1; i < faces - 1; i++)`. -/
def topLoop (M : CMath α) (faces : Int) : List (Vertex α) :=
  forLoop (faces - 1) (topBody M faces) (tripCount 1 (faces - 1)) 1

/-- The bottom loop, `for (int i = 0; i < faces - 1; i++)`. -/
def botLoop (M : CMath α) (faces : Int) : List (Vertex α) :=
  forLoop (faces - 1) (botBody M faces) (tripCount 0 (faces - 1)) 0

/-- The function `genVerts`: the vector after the three loops have pushed into it. -/
def genVerts (M : CMath α) (faces : Int) : List (Vertex α) :=
  sideLoop M faces ++ topLoop M faces ++ botLoop M faces

/-- The argument of `vertices.reserve(faces*6 + (faces-2)*3*2)` at the head of `genVerts`,
computed in `int`. -/
def reserveArg (faces : Int) : Int :=
  wrapInt (wrapInt (faces * 6) + wrapInt (wrapInt (wrapInt (faces - 2) * 3) * 2))

/-- A call `genVerts(vbo, faces)`: `none` when `vertices.reserve` throws `std::length_error`,
which it does for a negative `int` argument (converted to `size_t` it exceeds `max_size()`);
otherwise the vector the three loops build. -/
def genVertsCall (M : CMath α) (faces : Int) : Option (List (Vertex α)) :=
  if reserveArg faces < 0 then none else some (genVerts M faces)

end Mesh

/-! ## The interaction state -/

/-- The record `Mouse`. -/
structure Mouse (α : Type) where
  last_xpos : α
  last_ypos : α
  sens : α
  yaw : α
  pitch : α

/-- The record `UniformBuffer`, without its four matrices. -/
structure UniformBuffer (α : Type) where
  view_pos : Vec4 α
  light_pos : Vec4 α
  light_clr : Vec4 α
  ambient_clr : Vec4 α
  ambient_str : α

/-- The record `View`. -/
structure View (α : Type) where
  pos : Vec3 α
  front : Vec3 α
  up : Vec3 α
  fov : α
  speed : α

/-- The record `Keys`. -/
structure Keys where
  left_click : Bool
  right_click : Bool
  w : Bool
  s : Bool
  a : Bool
  d : Bool
  e : Bool
  q : Bool
  space : Bool
  shift : Bool
  tab : Bool
  red : Bool
  green : Bool
  blue : Bool
deriving DecidableEq, Repr

/-- The enumeration `Mode`. -/
inductive Mode where
  | CAM
  | LIGHT
deriving DecidableEq, Repr

/-- The record `State`. -/
structure State (α : Type) where
  mouse : Mouse α
  ub : UniformBuffer α
  view : View α
  cam_pos : Vec3 α
  scr_res : Int × Int
  faces : Int
  dt : α
  rot_speed : α
  rot : α
  keys : Keys
  mode : Mode

/-- The variables of `main` that the loop body updates: `state` and `vertices`. -/
structure MainLoop (α : Type) where
  state : State α
  vertices : List (Vertex α)

/-- The key codes `keyCallback` distinguishes (`GLFW_KEY_W`, ...); `other` is any other code. -/
inductive Key where
  | W | S | A | D | E | Q | SPACE | LEFT_SHIFT | NUM_1 | NUM_2 | NUM_3 | TAB | other
deriving DecidableEq, Repr

/-- The key and button actions (`GLFW_PRESS`, `GLFW_RELEASE`, `GLFW_REPEAT`). -/
inductive Action where
  | PRESS | RELEASE | REPEAT
deriving DecidableEq, Repr

/-- The mouse buttons `mouseButtonCallback` distinguishes; `other` is any other button. -/
inductive MouseButton where
  | LEFT | RIGHT | other
deriving DecidableEq, Repr

/-- An input event delivered by `glfwPollEvents` to one of the registered callbacks. -/
inductive Event (α : Type) where
  | key (k : Key) (action : Action)
  | mouseButton (b : MouseButton) (action : Action)
  | cursorPos (xpos ypos : α)
  | scroll (xoffset yoffset : α)
  | windowSize (width height : Int)

/-- The inner `switch (action)` of the callbacks: a press sets the flag, a release clears it. -/
def switchAction (action : Action) (flag : Bool) : Bool :=
  match action with
  | .PRESS => true
  | .RELEASE => false
  | .REPEAT => flag

/-- The function `keyCallback`, on the `keys` record. -/
def keyCallbackKeys (key : Key) (action : Action) (k : Keys) : Keys :=
  match key with
  | .W => { k with w := switchAction action k.w }
  | .S => { k with s := switchAction action k.s }
  | .A => { k with a := switchAction action k.a }
  | .D => { k with d := switchAction action k.d }
  | .E => { k with e := switchAction action k.e }
  | .Q => { k with q := switchAction action k.q }
  | .SPACE => { k with space := switchAction action k.space }
  | .LEFT_SHIFT => { k with shift := switchAction action k.shift }
  | .NUM_1 => { k with red := switchAction action k.red }
  | .NUM_2 => { k with green := switchAction action k.green }
  | .NUM_3 => { k with blue := switchAction action k.blue }
  | .TAB => { k with tab := switchAction action k.tab }
  | .other => k

/-- The function `mouseButtonCallback`, on the `keys` record. -/
def mouseButtonCallbackKeys (button : MouseButton) (action : Action) (k : Keys) : Keys :=
  match button with
  | .LEFT => { k with left_click := switchAction action k.left_click }
  | .RIGHT => { k with right_click := switchAction action k.right_click }
  | .other => k

section Machine

variable {α : Type} [LinearOrderedField α]

/-- The function `keyCallback`. -/
def keyCallback (key : Key) (action : Action) (s : State α) : State α :=
  { s with keys := keyCallbackKeys key action s.keys }

/-- The function `mouseButtonCallback`. -/
def mouseButtonCallback (button : MouseButton) (action : Action) (s : State α) : State α :=
  { s with keys := mouseButtonCallbackKeys button action s.keys }

/-- The function `std::clamp`. -/
def clamp (v lo hi : α) : α := if v < lo then lo else if hi < v then hi else v

/-- The function `cursorPosCallback`. -/
def cursorPosCallback (M : CMath α) (xpos ypos : α) (s : State α) : State α :=
  let xoffset := (xpos - s.mouse.last_xpos) * s.mouse.sens
  let yoffset := (-(ypos - s.mouse.last_ypos)) * s.mouse.sens
  let yaw := s.mouse.yaw + xoffset
  let pitch := clamp (s.mouse.pitch + yoffset) (-89) 89
  let front := Vec3.normalize M
    ⟨M.cos (radians M yaw) * M.cos (radians M pitch),
     M.sin (radians M pitch),
     M.sin (radians M yaw) * M.cos (radians M pitch)⟩
  { s with
    mouse := { s.mouse with last_xpos := xpos, last_ypos := ypos, yaw := yaw, pitch := pitch }
    view := { s.view with front := front } }

/-- The function `scrollCallback`, which changes nothing. -/
def scrollCallback (_xoffset _yoffset : α) (s : State α) : State α := s

/-- The function `windowSizeCallback`. -/
def windowSizeCallback (width height : Int) (s : State α) : State α :=
  { s with scr_res := (width, height) }

/-- Dispatch of one event to its callback. -/
def applyEvent (M : CMath α) (s : State α) : Event α → State α
  | .key k a => keyCallback k a s
  | .mouseButton b a => mouseButtonCallback b a s
  | .cursorPos x y => cursorPosCallback M x y s
  | .scroll x y => scrollCallback x y s
  | .windowSize w h => windowSizeCallback w h s

/-- The call `glfwPollEvents()`: the pending events run their callbacks in order. -/
def pollEvents (M : CMath α) (evs : List (Event α)) (s : State α) : State α :=
  evs.foldl (applyEvent M) s

/-- The method `State::updateUB`, restricted to the fields kept in the model. -/
def updateUB (s : State α) : State α :=
  { s with ub := { s.ub with view_pos := Vec4.ofVec3 s.view.pos 0 } }

/-- The function `State::init`; the window size and the cursor position come from GLFW. -/
def State.init (width height : Int) (xpos ypos : α) : State α :=
  let cam_pos : Vec3 α := ⟨0, 0, 2⟩
  updateUB
    { mouse := { last_xpos := xpos, last_ypos := ypos, sens := 1 / 10, yaw := -90, pitch := 0 }
      ub := { view_pos := ⟨0, 0, 0, 0⟩
              light_pos := ⟨6 / 5, 1, 2, 1 / 5⟩
              light_clr := ⟨1, 1, 1, 1⟩
              ambient_clr := ⟨1, 1, 1, 1⟩
              ambient_str := 1 / 10 }
      view := { pos := cam_pos, front := ⟨0, 0, -1⟩, up := ⟨0, 1, 0⟩, fov := 90, speed := 1 / 250 }
      cam_pos := cam_pos
      scr_res := (width, height)
      faces := 4
      dt := 0
      rot_speed := 1 / 25
      rot := 0
      keys := ⟨false, false, false, false, false, false, false, false, false, false, false,
               false, false, false⟩
      mode := .CAM }

/-- The constant `clr_speed` of the process block. -/
def clr_speed : α := 1 / 2000

/-- The assignment `state.view.pos = p`. -/
def State.setViewPos (s : State α) (p : Vec3 α) : State α :=
  { s with view := { s.view with pos := p } }

/-- The assignment `state.rot = r`. -/
def State.setRot (s : State α) (r : α) : State α := { s with rot := r }

/-- The assignment `state.ub.light_clr = c`. -/
def State.setLightClr (s : State α) (c : Vec4 α) : State α :=
  { s with ub := { s.ub with light_clr := c } }

/-- The assignment `state.ub.ambient_str = a`. -/
def State.setAmbientStr (s : State α) (a : α) : State α :=
  { s with ub := { s.ub with ambient_str := a } }

/-- The block `if (state.keys.tab) { switch (state.mode) ... state.keys.tab = false; }`. -/
def tabStep (s : State α) : State α :=
  if s.keys.tab then
    let s1 : State α :=
      match s.mode with
      | .LIGHT => { s with mode := .CAM, view := { s.view with pos := s.cam_pos } }
      | .CAM => { s with mode := .LIGHT, view := { s.view with pos := s.ub.light_pos.xyz } }
    { s1 with keys := { s1.keys with tab := false } }
  else s

/-- The strafe axis `glm::normalize(glm::cross(state.view.front, state.view.up))`. -/
def strafe (M : CMath α) (s : State α) : Vec3 α :=
  Vec3.normalize M (Vec3.cross s.view.front s.view.up)

/-- The six movement statements `if (state.keys.w) state.view.pos += ...` to
`if (state.keys.shift) state.view.pos -= ...`, in source order. -/
def moveStep (M : CMath α) (s : State α) : State α :=
  let dt := s.dt
  let s := if s.keys.w then
    s.setViewPos (s.view.pos.add ((s.view.front.scale s.view.speed).scale dt)) else s
  let s := if s.keys.s then
    s.setViewPos (s.view.pos.sub ((s.view.front.scale s.view.speed).scale dt)) else s
  let s := if s.keys.a then
    s.setViewPos (s.view.pos.sub (((strafe M s).scale s.view.speed).scale dt)) else s
  let s := if s.keys.d then
    s.setViewPos (s.view.pos.add (((strafe M s).scale s.view.speed).scale dt)) else s
  let s := if s.keys.space then
    s.setViewPos (s.view.pos.add ((s.view.up.scale s.view.speed).scale dt)) else s
  let s := if s.keys.shift then
    s.setViewPos (s.view.pos.sub ((s.view.up.scale s.view.speed).scale dt)) else s
  s

/-- The branch `case LIGHT:` of the second `switch (state.mode)`. -/
def lightCase (s : State α) : State α :=
  let dt := s.dt
  let s : State α :=
    { s with ub := { s.ub with light_pos := Vec4.ofVec3 s.view.pos s.ub.light_pos.w } }
  let s := if s.keys.left_click then s.setAmbientStr (s.ub.ambient_str + clr_speed * dt) else s
  let s := if s.keys.right_click then s.setAmbientStr (s.ub.ambient_str - clr_speed * dt) else s
  s

/-- The block `if (state.keys.left_click) { state.faces += 1; vertices = genVerts(vbo,
state.faces); state.keys.left_click = false; }`: when `genVerts` throws, the exception leaves the
block with `faces` already incremented and the flag still set. -/
def leftBlock (M : CMath α) (L : MainLoop α) : Except (MainLoop α) (MainLoop α) :=
  if L.state.keys.left_click then
    let faces := wrapInt (L.state.faces + 1)
    match genVertsCall M faces with
    | none => .error { L with state := { L.state with faces := faces } }
    | some vs =>
      .ok { state := { L.state with
                       faces := faces, keys := { L.state.keys with left_click := false } }
            vertices := vs }
  else .ok L

/-- The block `if (state.keys.right_click) { if (state.faces > 3) state.faces -= 1; vertices =
genVerts(vbo, state.faces); state.keys.right_click = false; }`. -/
def rightBlock (M : CMath α) (L : MainLoop α) : Except (MainLoop α) (MainLoop α) :=
  if L.state.keys.right_click then
    let faces := if L.state.faces > 3 then wrapInt (L.state.faces - 1) else L.state.faces
    match genVertsCall M faces with
    | none => .error { L with state := { L.state with faces := faces } }
    | some vs =>
      .ok { state := { L.state with
                       faces := faces, keys := { L.state.keys with right_click := false } }
            vertices := vs }
  else .ok L

/-- The branch `case CAM:` of the second `switch (state.mode)`. -/
def camCase (M : CMath α) (L : MainLoop α) : Except (MainLoop α) (MainLoop α) :=
  match leftBlock M { L with state := { L.state with cam_pos := L.state.view.pos } } with
  | .error L1 => .error L1
  | .ok L1 => rightBlock M L1

/-- The second `switch (state.mode)` of the process block. -/
def modeStep (M : CMath α) (L : MainLoop α) : Except (MainLoop α) (MainLoop α) :=
  match L.state.mode with
  | .LIGHT => .ok { L with state := lightCase L.state }
  | .CAM => camCase M L

/-- The two rotation statements `if (state.keys.q) ...` and `if (state.keys.e) ...`. -/
def rotStep (s : State α) : State α :=
  let dt := s.dt
  let s := if s.keys.q then s.setRot (s.rot - s.rot_speed * dt) else s
  let s := if s.keys.e then s.setRot (s.rot + s.rot_speed * dt) else s
  s

/-- The loop `while (x > 1.0f) x -= 1.0f;`, for at most `n` iterations. -/
def whileGtOne : Nat → α → α
  | 0, x => x
  | n + 1, x => if x > 1 then whileGtOne n (x - 1) else x

/-- The body of one colour-key block: add `clr_speed * dt`, then run the `while` loop; the
value `⌈x⌉₊` bounds the number of iterations the loop makes from `x`. -/
def clrChannel [FloorRing α] (c dt : α) : α :=
  let x := c + clr_speed * dt
  whileGtOne ⌈x⌉₊ x

/-- The three blocks `if (state.keys.red) ...`, `green`, `blue`. -/
def clrStep [FloorRing α] (s : State α) : State α :=
  let dt := s.dt
  let s := if s.keys.red then
    s.setLightClr { s.ub.light_clr with x := clrChannel s.ub.light_clr.x dt } else s
  let s := if s.keys.green then
    s.setLightClr { s.ub.light_clr with y := clrChannel s.ub.light_clr.y dt } else s
  let s := if s.keys.blue then
    s.setLightClr { s.ub.light_clr with z := clrChannel s.ub.light_clr.z dt } else s
  s

/-- The process block of the main loop after `glfwPollEvents()`: the per-frame update.  An
exception thrown in the mode switch leaves the block at once. -/
def process [FloorRing α] (M : CMath α) (L : MainLoop α) : Except (MainLoop α) (MainLoop α) :=
  match modeStep M { L with state := moveStep M (tabStep L.state) } with
  | .error L1 => .error L1
  | .ok L1 => .ok { L1 with state := updateUB (clrStep (rotStep L1.state)) }

/-- One iteration of the main loop up to the end of the process block: `state.dt` receives
the elapsed milliseconds, the pending events run, then the per-frame update. -/
def frame [FloorRing α] (M : CMath α) (ms : Int) (evs : List (Event α)) (L : MainLoop α) :
    Except (MainLoop α) (MainLoop α) :=
  process M { L with state := pollEvents M evs { L.state with dt := (ms : α) } }

/-- A run of main-loop iterations, each with its elapsed time and its events; an exception
ends the run. -/
def run [FloorRing α] (M : CMath α) (L : MainLoop α) :
    List (Int × List (Event α)) → Except (MainLoop α) (MainLoop α)
  | [] => .ok L
  | f :: fs =>
    match frame M f.1 f.2 L with
    | .error L1 => .error L1
    | .ok L1 => run M L1 fs

/-- The variables when control leaves a block, at its end or by the exception. -/
def leave {σ : Type} : Except σ σ → σ
  | .ok s => s
  | .error s => s

/-- The variables of `main` when the loop is entered; `genVerts(vbo, 4)` reserves 36 vertices
and does not throw. -/
def mainInit (M : CMath α) (width height : Int) (xpos ypos : α) : MainLoop α :=
  let state : State α := State.init width height xpos ypos
  { state := state, vertices := genVerts M state.faces }

end Machine

/-! ## Counting loops -/

section LoopLemmas

variable {β : Type}

theorem forLoop_step (hi : Int) (body : Int → List β) (n : Nat) (i : Int) (h : i < hi) :
    forLoop hi body (n + 1) i = body i ++ forLoop hi body n (i + 1) := by
  simp [forLoop, h]

theorem forLoop_exit (hi : Int) (body : Int → List β) (n : Nat) (i : Int) (h : hi ≤ i) :
    forLoop hi body n i = [] := by
  cases n with
  | zero => rfl
  | succ n => simp [forLoop, not_lt.mpr h]

/-- Once the fuel covers the distance to the bound, the loop leaves through its guard:
any further fuel gives the same vector. -/
theorem forLoop_fuel (hi : Int) (body : Int → List β) (n : Nat) (lo : Int)
    (h : tripCount lo hi ≤ n) :
    forLoop hi body n lo = forLoop hi body (tripCount lo hi) lo := by
  induction n generalizing lo with
  | zero =>
    have : tripCount lo hi = 0 := Nat.le_zero.mp h
    rw [this]
  | succ n ih =>
    by_cases hlt : lo < hi
    · have h1 : tripCount lo hi = tripCount (lo + 1) hi + 1 := by
        unfold tripCount; omega
      have h2 : tripCount (lo + 1) hi ≤ n := by omega
      rw [h1, forLoop_step _ _ _ _ hlt, forLoop_step _ _ _ _ hlt, ih _ h2]
    · rw [forLoop_exit _ _ _ _ (not_lt.mp hlt), forLoop_exit _ _ _ _ (not_lt.mp hlt)]

theorem mem_forLoop (hi : Int) (body : Int → List β) (n : Nat) (lo : Int)
    (h : tripCount lo hi ≤ n) (v : β) :
    v ∈ forLoop hi body n lo ↔ ∃ i, lo ≤ i ∧ i < hi ∧ v ∈ body i := by
  induction n generalizing lo with
  | zero =>
    have h0 : hi ≤ lo := by unfold tripCount at h; omega
    simp only [forLoop, List.not_mem_nil, false_iff]
    rintro ⟨i, h1, h2, _⟩
    omega
  | succ n ih =>
    by_cases hlt : lo < hi
    · have h2 : tripCount (lo + 1) hi ≤ n := by unfold tripCount at h ⊢; omega
      rw [forLoop_step _ _ _ _ hlt, List.mem_append, ih _ h2]
      constructor
      · rintro (hv | ⟨i, h1, h3, hv⟩)
        · exact ⟨lo, le_refl _, hlt, hv⟩
        · exact ⟨i, by omega, h3, hv⟩
      · rintro ⟨i, h1, h3, hv⟩
        by_cases hi0 : i = lo
        · left; rw [← hi0]; exact hv
        · right; exact ⟨i, by omega, h3, hv⟩
    · rw [forLoop_exit _ _ _ _ (not_lt.mp hlt)]
      simp only [List.not_mem_nil, false_iff]
      rintro ⟨i, h1, h3, _⟩
      omega

theorem length_forLoop (hi : Int) (body : Int → List β) (c : Nat)
    (hc : ∀ i, (body i).length = c) (n : Nat) (lo : Int) (h : tripCount lo hi ≤ n) :
    (forLoop hi body n lo).length = c * tripCount lo hi := by
  induction n generalizing lo with
  | zero =>
    have : tripCount lo hi = 0 := Nat.le_zero.mp h
    simp [forLoop, this]
  | succ n ih =>
    by_cases hlt : lo < hi
    · have h1 : tripCount lo hi = tripCount (lo + 1) hi + 1 := by
        unfold tripCount; omega
      have h2 : tripCount (lo + 1) hi ≤ n := by omega
      rw [forLoop_step _ _ _ _ hlt, List.length_append, ih _ h2, hc, h1]
      ring
    · have : tripCount lo hi = 0 := by unfold tripCount; omega
      rw [forLoop_exit _ _ _ _ (not_lt.mp hlt), this]
      simp

theorem getElem?_forLoop (hi : Int) (body : Int → List β) (c : Nat)
    (hc : ∀ i, (body i).length = c) (n : Nat) (lo : Int) (h : tripCount lo hi ≤ n)
    (i k : Nat) (hi1 : lo + i < hi) (hk : k < c) :
    (forLoop hi body n lo)[c * i + k]? = (body (lo + i))[k]? := by
  induction n generalizing lo i with
  | zero => unfold tripCount at h; omega
  | succ n ih =>
    have hlt : lo < hi := by omega
    have h2 : tripCount (lo + 1) hi ≤ n := by unfold tripCount at h ⊢; omega
    rw [forLoop_step _ _ _ _ hlt]
    cases i with
    | zero =>
      rw [List.getElem?_append_left (by rw [hc]; omega)]
      simp
    | succ i =>
      rw [List.getElem?_append_right (by rw [hc, Nat.mul_succ]; omega), hc]
      have e : c * (i + 1) + k - c = c * i + k := by rw [Nat.mul_succ]; omega
      rw [e, ih (lo + 1) h2 i (by push_cast at hi1; omega)]
      congr 2
      push_cast; ring

end LoopLemmas

section MeshLemmas

variable {α : Type} [LinearOrderedField α]

theorem length_sideLoop (M : CMath α) (faces : Int) :
    (sideLoop M faces).length = 6 * tripCount 0 faces :=
  length_forLoop faces (sideBody M faces) 6 (fun _ => rfl) _ 0 (le_refl _)

theorem length_topLoop (M : CMath α) (faces : Int) :
    (topLoop M faces).length = 3 * tripCount 1 (faces - 1) :=
  length_forLoop (faces - 1) (topBody M faces) 3 (fun _ => rfl) _ 1 (le_refl _)

theorem length_botLoop (M : CMath α) (faces : Int) :
    (botLoop M faces).length = 3 * tripCount 0 (faces - 1) :=
  length_forLoop (faces - 1) (botBody M faces) 3 (fun _ => rfl) _ 0 (le_refl _)

end MeshLemmas

/-! ## The mesh generator: counts and normals -/

/-- C1: for `faces ≥ 3` the vector returned by `genVerts` is the side loop's `faces*6`
vertices, then the top loop's `(faces-2)*3`, then the bottom loop's `(faces-1)*3`, so it has
`faces*6 + ((faces-2) + (faces-1))*3` elements. -/
theorem genVerts_length {α : Type} [LinearOrderedField α] (M : CMath α) (faces : Int)
    (h : 3 ≤ faces) :
    ((genVerts M faces).length : Int) = faces * 6 + ((faces - 2) + (faces - 1)) * 3 ∧
    genVerts M faces = sideLoop M faces ++ topLoop M faces ++ botLoop M faces ∧
    ((sideLoop M faces).length : Int) = faces * 6 ∧
    ((topLoop M faces).length : Int) = (faces - 2) * 3 ∧
    ((botLoop M faces).length : Int) = (faces - 1) * 3 := by
  have hs : ((sideLoop M faces).length : Int) = faces * 6 := by
    rw [length_sideLoop]; unfold tripCount; push_cast; omega
  have ht : ((topLoop M faces).length : Int) = (faces - 2) * 3 := by
    rw [length_topLoop]; unfold tripCount; push_cast; omega
  have hb : ((botLoop M faces).length : Int) = (faces - 1) * 3 := by
    rw [length_botLoop]; unfold tripCount; push_cast; omega
  refine ⟨?_, rfl, hs, ht, hb⟩
  unfold genVerts
  rw [List.length_append, List.length_append]
  push_cast
  rw [hs, ht, hb]
  ring

/-- Witness of C1 at `faces = 4`, over the reals: 39 vertices. -/
theorem genVerts_length_witness :
    (3 : Int) ≤ 4 ∧
    ((genVerts (⟨Real.sin, Real.cos, Real.sqrt, Real.pi⟩ : CMath ℝ) 4).length : Int)
      = 4 * 6 + ((4 - 2) + (4 - 1)) * 3 :=
  ⟨by decide, (genVerts_length ⟨Real.sin, Real.cos, Real.sqrt, Real.pi⟩ 4 (by decide)).1⟩

/-- The vertex at index `6i + k` of the output is the `k`-th vertex pushed by iteration `i`
of the side loop, and carries that iteration's `norm`. -/
theorem getElem?_genVerts_side {α : Type} [LinearOrderedField α] (M : CMath α) (faces : Int)
    (i k : Nat) (hi : (i : Int) < faces) (hk : k < 6) :
    ∃ v, (genVerts M faces)[6 * i + k]? = some v ∧ v.norm = sideNorm M faces i := by
  have hlen : 6 * i + k < (sideLoop M faces).length := by
    rw [length_sideLoop]; unfold tripCount; omega
  have e : (genVerts M faces)[6 * i + k]? = (sideBody M faces (0 + i))[k]? := by
    unfold genVerts
    rw [List.getElem?_append_left (by rw [List.length_append]; omega),
      List.getElem?_append_left hlen]
    exact getElem?_forLoop faces (sideBody M faces) 6 (fun _ => rfl) _ 0 (le_refl _) i k
      (by omega) hk
  rw [e, zero_add]
  interval_cases k <;> exact ⟨_, rfl, rfl⟩

/-- C2: in the output of `genVerts`, the six vertices at indices `6i .. 6i+5` of every
sector `i < faces` carry one and the same normal (the `norm` local of that iteration); every
vertex pushed by the top loop has normal `(0,1,0)` and every vertex pushed by the bottom loop
has normal `(0,-1,0)`.  This holds for every `faces`, in particular for `faces ≥ 3`. -/
theorem genVerts_normals {α : Type} [LinearOrderedField α] (M : CMath α) (faces : Int) :
    (∀ i : Nat, (i : Int) < faces → ∀ k : Nat, k < 6 →
      ∃ v, (genVerts M faces)[6 * i + k]? = some v ∧ v.norm = sideNorm M faces i) ∧
    (∀ v ∈ topLoop M faces, v.norm = ⟨0, 1, 0⟩) ∧
    (∀ v ∈ botLoop M faces, v.norm = ⟨0, -1, 0⟩) := by
  refine ⟨?_, ?_, ?_⟩
  · intro i hi k hk
    exact getElem?_genVerts_side M faces i k hi hk
  · intro v hv
    obtain ⟨i, _, _, hv⟩ := (mem_forLoop _ _ _ _ (le_refl _) v).mp hv
    simp only [topBody, List.mem_cons, List.mem_singleton, List.not_mem_nil, or_false] at hv
    rcases hv with rfl | rfl | rfl <;> rfl
  · intro v hv
    obtain ⟨i, _, _, hv⟩ := (mem_forLoop _ _ _ _ (le_refl _) v).mp hv
    simp only [botBody, List.mem_cons, List.mem_singleton, List.not_mem_nil, or_false] at hv
    rcases hv with rfl | rfl | rfl <;> rfl

/-- Witness of C2: in the square prism the vertex at index `6*1 + 2` carries the normal of
sector 1. -/
theorem genVerts_normals_witness :
    ∃ v, (genVerts (⟨Real.sin, Real.cos, Real.sqrt, Real.pi⟩ : CMath ℝ) 4)[6 * 1 + 2]? = some v ∧
      v.norm = sideNorm (⟨Real.sin, Real.cos, Real.sqrt, Real.pi⟩ : CMath ℝ) 4 ((1 : Nat) : Int) :=
  (genVerts_normals ⟨Real.sin, Real.cos, Real.sqrt, Real.pi⟩ 4).1 1 (by decide) 2 (by decide)

/-- C3, as stated, fails: for `faces = 3` the top loop runs once (`i = 1 < 2`) and pushes 3
vertices, not 0, and the bottom loop runs twice (`i = 0, 1`) and pushes 6 vertices, not 3. -/
theorem genVerts_three_counts_refuted :
    (topLoop (⟨Real.sin, Real.cos, Real.sqrt, Real.pi⟩ : CMath ℝ) 3).length = 3 ∧
    (botLoop (⟨Real.sin, Real.cos, Real.sqrt, Real.pi⟩ : CMath ℝ) 3).length = 6 ∧
    ¬ ((sideLoop (⟨Real.sin, Real.cos, Real.sqrt, Real.pi⟩ : CMath ℝ) 3).length = 18 ∧
       (topLoop (⟨Real.sin, Real.cos, Real.sqrt, Real.pi⟩ : CMath ℝ) 3).length = 0 ∧
       (botLoop (⟨Real.sin, Real.cos, Real.sqrt, Real.pi⟩ : CMath ℝ) 3).length = 3) := by
  have ht := length_topLoop (⟨Real.sin, Real.cos, Real.sqrt, Real.pi⟩ : CMath ℝ) 3
  have hb := length_botLoop (⟨Real.sin, Real.cos, Real.sqrt, Real.pi⟩ : CMath ℝ) 3
  have e1 : tripCount 1 (3 - 1) = 1 := by decide
  have e2 : tripCount 0 (3 - 1) = 2 := by decide
  rw [e1] at ht
  rw [e2] at hb
  refine ⟨ht, hb, ?_⟩
  rintro ⟨_, h0, _⟩
  rw [ht] at h0
  exact absurd h0 (by decide)

/-- C3, amended: `genVerts(3)` is 18 side vertices followed by 3 top-cap vertices (the one
triangle of the top loop's single iteration `i = 1`) followed by the bottom loop's output. -/
theorem genVerts_three_counts {α : Type} [LinearOrderedField α] (M : CMath α) :
    (sideLoop M 3).length = 18 ∧ (topLoop M 3).length = 3 ∧
    topLoop M 3 = topBody M 3 1 ∧
    genVerts M 3 = sideLoop M 3 ++ topLoop M 3 ++ botLoop M 3 := by
  refine ⟨?_, ?_, ?_, rfl⟩
  · rw [length_sideLoop]; decide
  · rw [length_topLoop]; decide
  · have e1 : tripCount 1 (3 - 1) = 1 := by decide
    unfold topLoop
    rw [e1]
    simp [forLoop]

/-! ## The per-frame update, step by step -/

section StepLemmas

variable {α : Type} [LinearOrderedField α]

omit [LinearOrderedField α] in
theorem ite_setViewPos (b : Bool) (s : State α) (p : Vec3 α) :
    (if b = true then s.setViewPos p else s) =
      s.setViewPos (if b = true then p else s.view.pos) := by
  cases b <;> rfl

/-- The movement statements only assign `state.view.pos`. -/
theorem moveStep_eq (M : CMath α) (s : State α) :
    ∃ p, moveStep M s = s.setViewPos p := by
  unfold moveStep
  simp only [ite_setViewPos]
  exact ⟨_, rfl⟩

/-- With no movement key held the movement statements change nothing. -/
theorem moveStep_idle (M : CMath α) (s : State α)
    (hw : s.keys.w = false) (hs : s.keys.s = false) (ha : s.keys.a = false)
    (hd : s.keys.d = false) (hsp : s.keys.space = false) (hsh : s.keys.shift = false) :
    moveStep M s = s := by
  simp [moveStep, hw, hs, ha, hd, hsp, hsh]

omit [LinearOrderedField α] in
theorem ite_setRot (b : Bool) (s : State α) (r : α) :
    (if b = true then s.setRot r else s) = s.setRot (if b = true then r else s.rot) := by
  cases b <;> rfl

omit [LinearOrderedField α] in
theorem ite_setLightClr (b : Bool) (s : State α) (c : Vec4 α) :
    (if b = true then s.setLightClr c else s) =
      s.setLightClr (if b = true then c else s.ub.light_clr) := by
  cases b <;> rfl

omit [LinearOrderedField α] in
theorem ite_setAmbientStr (b : Bool) (s : State α) (a : α) :
    (if b = true then s.setAmbientStr a else s) =
      s.setAmbientStr (if b = true then a else s.ub.ambient_str) := by
  cases b <;> rfl

/-- The rotation statements only assign `state.rot`. -/
theorem rotStep_eq (s : State α) : ∃ r, rotStep s = s.setRot r := by
  unfold rotStep
  simp only [ite_setRot]
  exact ⟨_, rfl⟩

/-- The colour blocks only assign `state.ub.light_clr`. -/
theorem clrStep_eq [FloorRing α] (s : State α) : ∃ c, clrStep s = s.setLightClr c := by
  unfold clrStep
  simp only [ite_setLightClr]
  exact ⟨_, rfl⟩

/-- What the tail of the process block (rotation, colour, `updateUB`) leaves alone. -/
theorem tail_eq [FloorRing α] (s : State α) :
    ∃ r c v, updateUB (clrStep (rotStep s)) =
      { s with rot := r, ub := { s.ub with light_clr := c, view_pos := v } } := by
  obtain ⟨r, hr⟩ := rotStep_eq s
  obtain ⟨c, hc⟩ := clrStep_eq (rotStep s)
  rw [hc, hr]
  exact ⟨r, c, _, rfl⟩

omit [LinearOrderedField α] in
/-- Effect of the tab block on the key flags. -/
theorem tabStep_keys (s : State α) : (tabStep s).keys = { s.keys with tab := false } := by
  unfold tabStep
  split_ifs with h
  · dsimp only
    split <;> rfl
  · have h' : s.keys.tab = false := by simpa using h
    rw [← h']

omit [LinearOrderedField α] in
theorem tabStep_mode (s : State α) :
    (tabStep s).mode =
      if s.keys.tab = true then (match s.mode with | .LIGHT => Mode.CAM | .CAM => Mode.LIGHT)
      else s.mode := by
  unfold tabStep
  split_ifs with h
  · dsimp only
    split <;> rfl
  · rfl

omit [LinearOrderedField α] in
theorem tabStep_view_pos (s : State α) :
    (tabStep s).view.pos =
      if s.keys.tab = true then
        (match s.mode with | .LIGHT => s.cam_pos | .CAM => s.ub.light_pos.xyz)
      else s.view.pos := by
  unfold tabStep
  split_ifs with h
  · dsimp only
    split <;> rfl
  · rfl

omit [LinearOrderedField α] in
theorem tabStep_rest (s : State α) :
    (tabStep s).faces = s.faces ∧ (tabStep s).cam_pos = s.cam_pos ∧ (tabStep s).ub = s.ub ∧
    (tabStep s).dt = s.dt := by
  unfold tabStep
  split_ifs with h
  · dsimp only
    split <;> exact ⟨rfl, rfl, rfl, rfl⟩
  · exact ⟨rfl, rfl, rfl, rfl⟩

/-- One event leaves everything but the key flags, the mouse record, `view.front` and
`scr_res` as it was. -/
theorem applyEvent_rest (M : CMath α) (s : State α) (e : Event α) :
    (applyEvent M s e).faces = s.faces ∧ (applyEvent M s e).mode = s.mode ∧
    (applyEvent M s e).cam_pos = s.cam_pos ∧ (applyEvent M s e).ub = s.ub ∧
    (applyEvent M s e).view.pos = s.view.pos ∧ (applyEvent M s e).dt = s.dt := by
  cases e <;> exact ⟨rfl, rfl, rfl, rfl, rfl, rfl⟩

theorem pollEvents_rest (M : CMath α) (evs : List (Event α)) (s : State α) :
    (pollEvents M evs s).faces = s.faces ∧ (pollEvents M evs s).mode = s.mode ∧
    (pollEvents M evs s).cam_pos = s.cam_pos ∧ (pollEvents M evs s).ub = s.ub ∧
    (pollEvents M evs s).view.pos = s.view.pos ∧ (pollEvents M evs s).dt = s.dt := by
  induction evs generalizing s with
  | nil => exact ⟨rfl, rfl, rfl, rfl, rfl, rfl⟩
  | cons e evs ih =>
    obtain ⟨h1, h2, h3, h4, h5, h6⟩ := ih (applyEvent M s e)
    obtain ⟨g1, g2, g3, g4, g5, g6⟩ := applyEvent_rest M s e
    simp only [pollEvents, List.foldl_cons] at h1 h2 h3 h4 h5 h6 ⊢
    exact ⟨h1.trans g1, h2.trans g2, h3.trans g3, h4.trans g4, h5.trans g5, h6.trans g6⟩

end StepLemmas

section ModeLemmas

variable {α : Type} [LinearOrderedField α]

/-- The LIGHT branch on a state: the light follows `view.pos`, the held buttons move
`ambient_str`, nothing else changes. -/
theorem lightCase_eq (s : State α) :
    lightCase s =
      { s with ub := { s.ub with
          light_pos := Vec4.ofVec3 s.view.pos s.ub.light_pos.w
          ambient_str :=
            if s.keys.right_click = true then
              (if s.keys.left_click = true then s.ub.ambient_str + clr_speed * s.dt
                else s.ub.ambient_str) - clr_speed * s.dt
            else
              (if s.keys.left_click = true then s.ub.ambient_str + clr_speed * s.dt
                else s.ub.ambient_str) } } := by
  unfold lightCase
  simp only [ite_setAmbientStr]
  rfl

omit [LinearOrderedField α] in
/-- A value in the range of `int` is left alone by the wrap. -/
theorem wrapInt_of_range (x : Int) (h1 : -2147483648 ≤ x) (h2 : x ≤ 2147483647) :
    wrapInt x = x := by
  unfold wrapInt
  rw [Int.emod_eq_of_lt (by omega) (by omega)]
  omega

omit [LinearOrderedField α] in
/-- For `1 ≤ faces ≤ 178956971` the `reserve` argument is `12*faces - 12`, without wrap. -/
theorem reserveArg_eq (faces : Int) (h1 : 1 ≤ faces) (h2 : faces ≤ 178956971) :
    reserveArg faces = 12 * faces - 12 := by
  unfold reserveArg
  rw [wrapInt_of_range (faces * 6) (by omega) (by omega),
    wrapInt_of_range (faces - 2) (by omega) (by omega),
    wrapInt_of_range ((faces - 2) * 3) (by omega) (by omega),
    wrapInt_of_range ((faces - 2) * 3 * 2) (by omega) (by omega),
    wrapInt_of_range _ (by omega) (by omega)]
  omega

/-- For `1 ≤ faces ≤ 178956971` the call `genVerts(vbo, faces)` returns. -/
theorem genVertsCall_of_range (M : CMath α) (faces : Int) (h1 : 1 ≤ faces)
    (h2 : faces ≤ 178956971) : genVertsCall M faces = some (genVerts M faces) := by
  unfold genVertsCall
  rw [reserveArg_eq faces h1 h2, if_neg (by omega)]

/-- The left-button block with the flag clear. -/
theorem leftBlock_clear (M : CMath α) (L : MainLoop α) (h : L.state.keys.left_click = false) :
    leftBlock M L = .ok L := by
  simp [leftBlock, h]

/-- The left-button block with the flag set, when `genVerts` returns. -/
theorem leftBlock_set_ok (M : CMath α) (L : MainLoop α) (h : L.state.keys.left_click = true)
    (vs : List (Vertex α)) (hg : genVertsCall M (wrapInt (L.state.faces + 1)) = some vs) :
    leftBlock M L = .ok
      { state := { L.state with
                   faces := wrapInt (L.state.faces + 1)
                   keys := { L.state.keys with left_click := false } }
        vertices := vs } := by
  simp [leftBlock, h, hg]

/-- The left-button block with the flag set, when `genVerts` throws. -/
theorem leftBlock_set_throw (M : CMath α) (L : MainLoop α)
    (h : L.state.keys.left_click = true)
    (hg : genVertsCall M (wrapInt (L.state.faces + 1)) = none) :
    leftBlock M L = .error
      { L with state := { L.state with faces := wrapInt (L.state.faces + 1) } } := by
  simp [leftBlock, h, hg]

/-- The right-button block with the flag clear. -/
theorem rightBlock_clear (M : CMath α) (L : MainLoop α)
    (h : L.state.keys.right_click = false) : rightBlock M L = .ok L := by
  simp [rightBlock, h]

/-- The right-button block with the flag set, when `genVerts` returns. -/
theorem rightBlock_set_ok (M : CMath α) (L : MainLoop α)
    (h : L.state.keys.right_click = true) (vs : List (Vertex α))
    (hg : genVertsCall M
      (if L.state.faces > 3 then wrapInt (L.state.faces - 1) else L.state.faces) = some vs) :
    rightBlock M L = .ok
      { state := { L.state with
                   faces := if L.state.faces > 3 then wrapInt (L.state.faces - 1)
                     else L.state.faces
                   keys := { L.state.keys with right_click := false } }
        vertices := vs } := by
  simp [rightBlock, h, hg]

/-- The right-button block with the flag set, when `genVerts` throws. -/
theorem rightBlock_set_throw (M : CMath α) (L : MainLoop α)
    (h : L.state.keys.right_click = true)
    (hg : genVertsCall M
      (if L.state.faces > 3 then wrapInt (L.state.faces - 1) else L.state.faces) = none) :
    rightBlock M L = .error
      { L with state := { L.state with
          faces := if L.state.faces > 3 then wrapInt (L.state.faces - 1)
            else L.state.faces } } := by
  simp [rightBlock, h, hg]

omit [LinearOrderedField α] in
/-- The wrap changes a value by a multiple of `2^32`. -/
theorem wrapInt_modEq (x : Int) : wrapInt x ≡ x [ZMOD 4294967296] := by
  unfold wrapInt
  have h := Int.mod_modEq (x + 2147483648) 4294967296
  have h2 := Int.ModEq.sub_right 2147483648 h
  simpa using h2

omit [LinearOrderedField α] in
/-- The wrap of `x` is the value congruent to `x` in the range of `int`. -/
theorem wrapInt_eq_of_modEq (x y : Int) (h : y ≡ x [ZMOD 4294967296])
    (h1 : -2147483648 ≤ y) (h2 : y ≤ 2147483647) : wrapInt x = y := by
  have e : wrapInt x = wrapInt y := by
    unfold wrapInt
    have : (y + 2147483648) % 4294967296 = (x + 2147483648) % 4294967296 :=
      Int.ModEq.add_right 2147483648 h
    rw [this]
  rw [e]
  exact wrapInt_of_range y h1 h2

omit [LinearOrderedField α] in
/-- The `reserve` argument is `12*faces - 12` wrapped to `int`. -/
theorem reserveArg_eq_wrap (faces : Int) : reserveArg faces = wrapInt (12 * faces - 12) := by
  unfold reserveArg
  have a1 := wrapInt_modEq (faces * 6)
  have a2 := wrapInt_modEq (faces - 2)
  have a3 := wrapInt_modEq (wrapInt (faces - 2) * 3)
  have a4 := wrapInt_modEq (wrapInt (wrapInt (faces - 2) * 3) * 2)
  have b3 : wrapInt (wrapInt (faces - 2) * 3) ≡ (faces - 2) * 3 [ZMOD 4294967296] :=
    a3.trans (Int.ModEq.mul_right 3 a2)
  have b4 : wrapInt (wrapInt (wrapInt (faces - 2) * 3) * 2) ≡ (faces - 2) * 3 * 2
      [ZMOD 4294967296] := a4.trans (Int.ModEq.mul_right 2 b3)
  have b5 : wrapInt (faces * 6) + wrapInt (wrapInt (wrapInt (faces - 2) * 3) * 2) ≡
      12 * faces - 12 [ZMOD 4294967296] := by
    have := Int.ModEq.add a1 b4
    have e : faces * 6 + (faces - 2) * 3 * 2 = 12 * faces - 12 := by ring
    rw [e] at this
    exact this
  unfold wrapInt
  have : (wrapInt (faces * 6) + wrapInt (wrapInt (wrapInt (faces - 2) * 3) * 2) + 2147483648)
      % 4294967296 = (12 * faces - 12 + 2147483648) % 4294967296 :=
    Int.ModEq.add_right 2147483648 b5
  unfold wrapInt at this
  rw [this]

omit [LinearOrderedField α] in
/-- For `178956972 ≤ faces ≤ 357913942` the `reserve` argument wraps to a negative `int`. -/
theorem reserveArg_neg (faces : Int) (h1 : 178956972 ≤ faces) (h2 : faces ≤ 357913942) :
    reserveArg faces < 0 := by
  rw [reserveArg_eq_wrap, wrapInt_eq_of_modEq (12 * faces - 12) (12 * faces - 12 - 4294967296)
    (by
      have := (Int.modEq_sub (12 * faces - 12) (12 * faces - 12 - 4294967296))
      exact (Int.modEq_iff_dvd.mpr ⟨1, by ring⟩))
    (by omega) (by omega)]
  omega

/-- For `178956972 ≤ faces ≤ 357913942` the call `genVerts(vbo, faces)` throws. -/
theorem genVertsCall_throws (M : CMath α) (faces : Int) (h1 : 178956972 ≤ faces)
    (h2 : faces ≤ 357913942) : genVertsCall M faces = none := by
  unfold genVertsCall
  rw [if_pos (reserveArg_neg faces h1 h2)]

/-- The CAM branch with no button flagged: only `cam_pos` is assigned. -/
theorem camCase_noclick (M : CMath α) (L : MainLoop α)
    (hl : L.state.keys.left_click = false) (hr : L.state.keys.right_click = false) :
    camCase M L = .ok { L with state := { L.state with cam_pos := L.state.view.pos } } := by
  unfold camCase
  rw [leftBlock_clear M { L with state := { L.state with cam_pos := L.state.view.pos } } hl]
  exact rightBlock_clear M _ hr

/-- The CAM branch with only the left button flagged, when `genVerts` returns. -/
theorem camCase_left_ok (M : CMath α) (L : MainLoop α)
    (hl : L.state.keys.left_click = true) (hr : L.state.keys.right_click = false)
    (vs : List (Vertex α)) (hg : genVertsCall M (wrapInt (L.state.faces + 1)) = some vs) :
    camCase M L = .ok
      { state := { L.state with
                   cam_pos := L.state.view.pos
                   faces := wrapInt (L.state.faces + 1)
                   keys := { L.state.keys with left_click := false } }
        vertices := vs } := by
  unfold camCase
  rw [leftBlock_set_ok M { L with state := { L.state with cam_pos := L.state.view.pos } } hl
    vs hg]
  exact rightBlock_clear M _ hr

/-- The CAM branch with the left button flagged, when `genVerts` throws: `cam_pos` and `faces`
are assigned, the flag is still set. -/
theorem camCase_left_throw (M : CMath α) (L : MainLoop α)
    (hl : L.state.keys.left_click = true)
    (hg : genVertsCall M (wrapInt (L.state.faces + 1)) = none) :
    camCase M L = .error
      { L with state := { L.state with
          cam_pos := L.state.view.pos, faces := wrapInt (L.state.faces + 1) } } := by
  unfold camCase
  rw [leftBlock_set_throw M { L with state := { L.state with cam_pos := L.state.view.pos } } hl
    hg]

/-- The CAM branch with only the right button flagged, when `genVerts` returns. -/
theorem camCase_right_ok (M : CMath α) (L : MainLoop α)
    (hl : L.state.keys.left_click = false) (hr : L.state.keys.right_click = true)
    (vs : List (Vertex α))
    (hg : genVertsCall M
      (if L.state.faces > 3 then wrapInt (L.state.faces - 1) else L.state.faces) = some vs) :
    camCase M L = .ok
      { state := { L.state with
                   cam_pos := L.state.view.pos
                   faces := if L.state.faces > 3 then wrapInt (L.state.faces - 1)
                     else L.state.faces
                   keys := { L.state.keys with right_click := false } }
        vertices := vs } := by
  unfold camCase
  rw [leftBlock_clear M { L with state := { L.state with cam_pos := L.state.view.pos } } hl]
  exact rightBlock_set_ok M { L with state := { L.state with cam_pos := L.state.view.pos } } hr
    vs hg

/-- The three ways the left-button block ends. -/
theorem leftBlock_cases (M : CMath α) (L : MainLoop α) :
    (L.state.keys.left_click = false ∧ leftBlock M L = .ok L) ∨
    (L.state.keys.left_click = true ∧ ∃ vs, leftBlock M L = .ok
      { state := { L.state with
                   faces := wrapInt (L.state.faces + 1)
                   keys := { L.state.keys with left_click := false } }
        vertices := vs }) ∨
    (L.state.keys.left_click = true ∧ leftBlock M L = .error
      { L with state := { L.state with faces := wrapInt (L.state.faces + 1) } }) := by
  rcases Bool.eq_false_or_eq_true L.state.keys.left_click with hl | hl
  · cases hg : genVertsCall M (wrapInt (L.state.faces + 1)) with
    | none => exact Or.inr (Or.inr ⟨hl, leftBlock_set_throw M L hl hg⟩)
    | some vs => exact Or.inr (Or.inl ⟨hl, vs, leftBlock_set_ok M L hl vs hg⟩)
  · exact Or.inl ⟨hl, leftBlock_clear M L hl⟩

/-- The state the right-button block leaves, by its end or by an exception. -/
theorem rightBlock_leave (M : CMath α) (L : MainLoop α) :
    (leave (rightBlock M L)).state =
      { L.state with
        faces := if L.state.keys.right_click = true then
            (if L.state.faces > 3 then wrapInt (L.state.faces - 1) else L.state.faces)
          else L.state.faces
        keys := { L.state.keys with
          right_click := L.state.keys.right_click &&
            (genVertsCall M (if L.state.faces > 3 then wrapInt (L.state.faces - 1)
              else L.state.faces)).isNone } } := by
  rcases Bool.eq_false_or_eq_true L.state.keys.right_click with hr | hr
  · cases hg : genVertsCall M
        (if L.state.faces > 3 then wrapInt (L.state.faces - 1) else L.state.faces) with
    | none =>
      rw [rightBlock_set_throw M L hr hg]
      simp only [leave, hr, if_true, Option.isNone_none, Bool.and_true]
      rw [← hr]
    | some vs =>
      rw [rightBlock_set_ok M L hr vs hg]
      simp only [leave, hr, if_true, Option.isNone_some, Bool.and_false]
  · rw [rightBlock_clear M L hr]
    simp only [leave, hr, Bool.false_eq_true, if_false, Bool.false_and]
    rw [← hr]

/-- The state the CAM branch leaves, by its end or by an exception: `cam_pos` follows
`view.pos`; the face count and the two click flags are the only other fields touched. -/
theorem camCase_leave (M : CMath α) (L : MainLoop α) :
    ∃ f lc rc, (leave (camCase M L)).state =
      { L.state with
        cam_pos := L.state.view.pos
        faces := f
        keys := { L.state.keys with left_click := lc, right_click := rc } } := by
  unfold camCase
  rcases leftBlock_cases M { L with state := { L.state with cam_pos := L.state.view.pos } }
    with ⟨_, e⟩ | ⟨_, vs, e⟩ | ⟨_, e⟩
  · rw [e]
    dsimp only
    rw [rightBlock_leave]
    exact ⟨_, L.state.keys.left_click, _, rfl⟩
  · rw [e]
    dsimp only
    rw [rightBlock_leave]
    exact ⟨_, _, _, rfl⟩
  · rw [e]
    exact ⟨_, L.state.keys.left_click, L.state.keys.right_click, rfl⟩

/-- The face count the CAM branch leaves, by its end or by an exception: the count after the
left block, or that count after the right block. -/
theorem camCase_leave_faces (M : CMath α) (L : MainLoop α) :
    (leave (camCase M L)).state.faces =
      (if L.state.keys.left_click = true then wrapInt (L.state.faces + 1) else L.state.faces) ∨
    (leave (camCase M L)).state.faces =
      (if (if L.state.keys.left_click = true then wrapInt (L.state.faces + 1)
            else L.state.faces) > 3
        then wrapInt ((if L.state.keys.left_click = true then wrapInt (L.state.faces + 1)
            else L.state.faces) - 1)
        else (if L.state.keys.left_click = true then wrapInt (L.state.faces + 1)
            else L.state.faces)) := by
  unfold camCase
  rcases leftBlock_cases M { L with state := { L.state with cam_pos := L.state.view.pos } }
    with ⟨hl, e⟩ | ⟨hl, vs, e⟩ | ⟨hl, e⟩
  · have hl2 : L.state.keys.left_click = false := hl
    rw [e]
    dsimp only
    rw [rightBlock_leave]
    simp only [hl2, Bool.false_eq_true, if_false]
    rcases Bool.eq_false_or_eq_true L.state.keys.right_click with hr | hr
    · right; simp only [hr, if_true]
    · left; simp only [hr, Bool.false_eq_true, if_false]
  · have hl2 : L.state.keys.left_click = true := hl
    rw [e]
    dsimp only
    rw [rightBlock_leave]
    simp only [hl2, if_true]
    rcases Bool.eq_false_or_eq_true L.state.keys.right_click with hr | hr
    · right; simp only [hr, if_true]
    · left; simp only [hr, Bool.false_eq_true, if_false]
  · have hl2 : L.state.keys.left_click = true := hl
    rw [e]
    left
    simp only [leave, hl2, if_true]

/-- The three ways the right-button block ends. -/
theorem rightBlock_cases (M : CMath α) (L : MainLoop α) :
    (L.state.keys.right_click = false ∧ rightBlock M L = .ok L) ∨
    (L.state.keys.right_click = true ∧ ∃ vs, rightBlock M L = .ok
      { state := { L.state with
                   faces := if L.state.faces > 3 then wrapInt (L.state.faces - 1)
                     else L.state.faces
                   keys := { L.state.keys with right_click := false } }
        vertices := vs }) ∨
    (L.state.keys.right_click = true ∧ rightBlock M L = .error
      { L with state := { L.state with
          faces := if L.state.faces > 3 then wrapInt (L.state.faces - 1)
            else L.state.faces } }) := by
  rcases Bool.eq_false_or_eq_true L.state.keys.right_click with hr | hr
  · cases hg : genVertsCall M
        (if L.state.faces > 3 then wrapInt (L.state.faces - 1) else L.state.faces) with
    | none => exact Or.inr (Or.inr ⟨hr, rightBlock_set_throw M L hr hg⟩)
    | some vs => exact Or.inr (Or.inl ⟨hr, vs, rightBlock_set_ok M L hr vs hg⟩)
  · exact Or.inl ⟨hr, rightBlock_clear M L hr⟩

/-- The right-button block, when it completes: the flag is clear and the face count is the
guarded decrement if the flag was set. -/
theorem rightBlock_ok (M : CMath α) (L C : MainLoop α) (h : rightBlock M L = .ok C) :
    C.state =
      { L.state with
        faces := if L.state.keys.right_click = true then
            (if L.state.faces > 3 then wrapInt (L.state.faces - 1) else L.state.faces)
          else L.state.faces
        keys := { L.state.keys with right_click := false } } := by
  rcases rightBlock_cases M L with ⟨hr, e⟩ | ⟨hr, vs, e⟩ | ⟨hr, e⟩
  · rw [e] at h
    injection h with h
    subst h
    simp only [hr, Bool.false_eq_true, if_false]
    rw [← hr]
  · rw [e] at h
    injection h with h
    subst h
    simp only [hr, if_true]
  · rw [e] at h
    cases h

/-- The CAM branch, when it completes: `cam_pos` follows `view.pos`, both click flags are
clear and the face count has moved by the flagged clicks. -/
theorem camCase_ok (M : CMath α) (L C : MainLoop α) (h : camCase M L = .ok C) :
    C.state =
      { L.state with
        cam_pos := L.state.view.pos
        faces :=
          if L.state.keys.right_click = true then
            (if (if L.state.keys.left_click = true then wrapInt (L.state.faces + 1)
                  else L.state.faces) > 3
              then wrapInt ((if L.state.keys.left_click = true then wrapInt (L.state.faces + 1)
                  else L.state.faces) - 1)
              else (if L.state.keys.left_click = true then wrapInt (L.state.faces + 1)
                  else L.state.faces))
          else (if L.state.keys.left_click = true then wrapInt (L.state.faces + 1)
                  else L.state.faces)
        keys := { L.state.keys with left_click := false, right_click := false } } := by
  unfold camCase at h
  rcases leftBlock_cases M { L with state := { L.state with cam_pos := L.state.view.pos } }
    with ⟨hl, e⟩ | ⟨hl, vs, e⟩ | ⟨hl, e⟩
  · have hl2 : L.state.keys.left_click = false := hl
    rw [e] at h
    dsimp only at h
    rw [rightBlock_ok M _ C h]
    simp only [hl2, Bool.false_eq_true, if_false]
  · have hl2 : L.state.keys.left_click = true := hl
    rw [e] at h
    dsimp only at h
    rw [rightBlock_ok M _ C h]
    simp only [hl2, if_true]
  · rw [e] at h
    cases h

/-- The right-button block completes when its call of `genVerts` returns. -/
theorem rightBlock_complete (M : CMath α) (L : MainLoop α) (vs : List (Vertex α))
    (hg : genVertsCall M
      (if L.state.faces > 3 then wrapInt (L.state.faces - 1) else L.state.faces) = some vs) :
    ∃ C, rightBlock M L = .ok C := by
  rcases Bool.eq_false_or_eq_true L.state.keys.right_click with hr | hr
  · exact ⟨_, rightBlock_set_ok M L hr vs hg⟩
  · exact ⟨_, rightBlock_clear M L hr⟩

/-- The CAM branch completes for every face count from 1 to 178956970, whatever buttons are
flagged. -/
theorem camCase_complete (M : CMath α) (L : MainLoop α) (h1 : 1 ≤ L.state.faces)
    (h2 : L.state.faces ≤ 178956970) : ∃ C, camCase M L = .ok C := by
  have e1 : wrapInt (L.state.faces + 1) = L.state.faces + 1 :=
    wrapInt_of_range _ (by omega) (by omega)
  have e2 : wrapInt (L.state.faces + 1 - 1) = L.state.faces :=
    (wrapInt_of_range _ (by omega) (by omega)).trans (by omega)
  have e3 : wrapInt (L.state.faces - 1) = L.state.faces - 1 :=
    wrapInt_of_range _ (by omega) (by omega)
  have g1 := genVertsCall_of_range M (L.state.faces + 1) (by omega) (by omega)
  have g2 := genVertsCall_of_range M L.state.faces h1 (by omega)
  unfold camCase
  rcases leftBlock_cases M { L with state := { L.state with cam_pos := L.state.view.pos } }
    with ⟨_, e⟩ | ⟨_, vs, e⟩ | ⟨hl, e⟩
  · rw [e]
    dsimp only
    apply rightBlock_complete
    show genVertsCall M (if L.state.faces > 3 then wrapInt (L.state.faces - 1)
      else L.state.faces) = some (genVerts M (if L.state.faces > 3 then L.state.faces - 1
      else L.state.faces))
    by_cases h3 : L.state.faces > 3
    · rw [if_pos h3, if_pos h3, e3]
      exact genVertsCall_of_range M (L.state.faces - 1) (by omega) (by omega)
    · rw [if_neg h3, if_neg h3]; exact g2
  · rw [e]
    dsimp only
    apply rightBlock_complete
    show genVertsCall M (if wrapInt (L.state.faces + 1) > 3
      then wrapInt (wrapInt (L.state.faces + 1) - 1) else wrapInt (L.state.faces + 1)) =
      some (genVerts M (if L.state.faces + 1 > 3 then L.state.faces else L.state.faces + 1))
    rw [e1, e2]
    by_cases h3 : L.state.faces + 1 > 3
    · rw [if_pos h3]; exact g2
    · rw [if_neg h3]; exact g1
  · exfalso
    have hl2 : L.state.keys.left_click = true := hl
    have := leftBlock_set_ok M
      { L with state := { L.state with cam_pos := L.state.view.pos } } hl2 _
      (by show genVertsCall M (wrapInt (L.state.faces + 1)) = _
          rw [e1]; exact g1)
    rw [this] at e
    cases e

end ModeLemmas

section ProcessLemmas

variable {α : Type} [LinearOrderedField α] [FloorRing α]

/-- A per-frame update that is in LIGHT mode once the tab block has run always completes. -/
theorem process_light (M : CMath α) (L : MainLoop α)
    (h : (tabStep L.state).mode = Mode.LIGHT) :
    process M L = .ok
      { L with state :=
          updateUB (clrStep (rotStep (lightCase (moveStep M (tabStep L.state))))) } := by
  obtain ⟨p, hp⟩ := moveStep_eq M (tabStep L.state)
  have hm : (moveStep M (tabStep L.state)).mode = Mode.LIGHT := by rw [hp]; exact h
  simp only [process, modeStep, hm]

/-- A per-frame update that is in CAM mode once the tab block has run ends as its CAM branch
does. -/
theorem process_cam (M : CMath α) (L : MainLoop α)
    (h : (tabStep L.state).mode = Mode.CAM) :
    process M L =
      match camCase M { L with state := moveStep M (tabStep L.state) } with
      | .error L1 => .error L1
      | .ok L1 => .ok { L1 with state := updateUB (clrStep (rotStep L1.state)) } := by
  obtain ⟨p, hp⟩ := moveStep_eq M (tabStep L.state)
  have hm : (moveStep M (tabStep L.state)).mode = Mode.CAM := by rw [hp]; exact h
  simp only [process, modeStep, hm]

/-- The state a CAM-mode update leaves, by its end or by an exception. -/
theorem process_cam_leave (M : CMath α) (L : MainLoop α)
    (h : (tabStep L.state).mode = Mode.CAM) :
    ∃ f lc rc r c v, (leave (process M L)).state =
      { moveStep M (tabStep L.state) with
        cam_pos := (moveStep M (tabStep L.state)).view.pos
        faces := f
        keys := { (moveStep M (tabStep L.state)).keys with left_click := lc, right_click := rc }
        rot := r
        ub := { (moveStep M (tabStep L.state)).ub with light_clr := c, view_pos := v } } := by
  obtain ⟨f, lc, rc, e⟩ := camCase_leave M { L with state := moveStep M (tabStep L.state) }
  rw [process_cam M L h]
  cases hc : camCase M { L with state := moveStep M (tabStep L.state) } with
  | error L1 =>
    rw [hc] at e
    dsimp only [leave] at e ⊢
    rw [e]
    exact ⟨f, lc, rc, _, _, _, rfl⟩
  | ok L1 =>
    rw [hc] at e
    dsimp only [leave] at e ⊢
    obtain ⟨r, c, v, ht⟩ := tail_eq L1.state
    rw [ht, e]
    exact ⟨f, lc, rc, r, c, v, rfl⟩

/-- The mode after a per-frame update, however it ends, is the mode the tab block leaves. -/
theorem process_mode (M : CMath α) (L : MainLoop α) :
    (leave (process M L)).state.mode = (tabStep L.state).mode := by
  obtain ⟨p, hp⟩ := moveStep_eq M (tabStep L.state)
  cases h : (tabStep L.state).mode
  · obtain ⟨f, lc, rc, r, c, v, e⟩ := process_cam_leave M L h
    rw [e, hp]
    exact h
  · obtain ⟨r, c, v, e⟩ := tail_eq (lightCase (moveStep M (tabStep L.state)))
    rw [process_light M L h]
    dsimp only [leave]
    rw [e, lightCase_eq, hp]
    exact h

/-- Fields after a per-frame update in CAM mode, however it ends. -/
theorem process_cam_fields (M : CMath α) (L : MainLoop α)
    (h : (tabStep L.state).mode = Mode.CAM) :
    (leave (process M L)).state.cam_pos = (moveStep M (tabStep L.state)).view.pos ∧
    (leave (process M L)).state.view.pos = (moveStep M (tabStep L.state)).view.pos ∧
    (leave (process M L)).state.ub.light_pos = L.state.ub.light_pos ∧
    (leave (process M L)).state.ub.ambient_str = L.state.ub.ambient_str := by
  obtain ⟨p, hp⟩ := moveStep_eq M (tabStep L.state)
  obtain ⟨f, lc, rc, r, c, v, e⟩ := process_cam_leave M L h
  have hub := (tabStep_rest L.state).2.2.1
  rw [e, hp]
  refine ⟨rfl, rfl, ?_, ?_⟩
  · show (tabStep L.state).ub.light_pos = _
    rw [hub]
  · show (tabStep L.state).ub.ambient_str = _
    rw [hub]

/-- A per-frame update in LIGHT mode completes; its fields. -/
theorem process_light_fields (M : CMath α) (L : MainLoop α)
    (h : (tabStep L.state).mode = Mode.LIGHT) :
    process M L = .ok (leave (process M L)) ∧
    (leave (process M L)).state.cam_pos = L.state.cam_pos ∧
    (leave (process M L)).state.faces = L.state.faces ∧
    (leave (process M L)).state.keys = { L.state.keys with tab := false } ∧
    (leave (process M L)).state.ub.light_pos =
      Vec4.ofVec3 (moveStep M (tabStep L.state)).view.pos L.state.ub.light_pos.w ∧
    (leave (process M L)).state.ub.ambient_str =
      if L.state.keys.right_click = true then
        (if L.state.keys.left_click = true then L.state.ub.ambient_str + clr_speed * L.state.dt
          else L.state.ub.ambient_str) - clr_speed * L.state.dt
      else
        (if L.state.keys.left_click = true then L.state.ub.ambient_str + clr_speed * L.state.dt
          else L.state.ub.ambient_str) := by
  obtain ⟨p, hp⟩ := moveStep_eq M (tabStep L.state)
  obtain ⟨r, c, v, e⟩ := tail_eq (lightCase (moveStep M (tabStep L.state)))
  obtain ⟨hfaces, hcam, hub, hdt⟩ := tabStep_rest L.state
  have hk := tabStep_keys L.state
  rw [process_light M L h]
  dsimp only [leave]
  rw [e, lightCase_eq, hp]
  refine ⟨rfl, hcam, hfaces, hk, ?_, ?_⟩
  · show Vec4.ofVec3 p (tabStep L.state).ub.light_pos.w = _
    rw [hub]
    rfl
  · show (if (tabStep L.state).keys.right_click = true then
        (if (tabStep L.state).keys.left_click = true then
          (tabStep L.state).ub.ambient_str + clr_speed * (tabStep L.state).dt
          else (tabStep L.state).ub.ambient_str) - clr_speed * (tabStep L.state).dt
      else
        (if (tabStep L.state).keys.left_click = true then
          (tabStep L.state).ub.ambient_str + clr_speed * (tabStep L.state).dt
          else (tabStep L.state).ub.ambient_str)) = _
    rw [hub, hdt, hk]

/-- The face count after a per-frame update, however it ends, stays at 3 or above. -/
theorem process_faces_ge (M : CMath α) (L : MainLoop α) (h3 : 3 ≤ L.state.faces)
    (hmax : L.state.faces < 2147483647) : 3 ≤ (leave (process M L)).state.faces := by
  obtain ⟨p, hp⟩ := moveStep_eq M (tabStep L.state)
  have hf : (moveStep M (tabStep L.state)).faces = L.state.faces := by
    rw [hp]; exact (tabStep_rest L.state).1
  cases h : (tabStep L.state).mode
  · rw [process_cam M L h]
    have e1 : wrapInt (L.state.faces + 1) = L.state.faces + 1 :=
      wrapInt_of_range _ (by omega) (by omega)
    have e2 : wrapInt (L.state.faces + 1 - 1) = L.state.faces :=
      (wrapInt_of_range _ (by omega) (by omega)).trans (by omega)
    have e3 : wrapInt (L.state.faces - 1) = L.state.faces - 1 :=
      wrapInt_of_range _ (by omega) (by omega)
    have key : 3 ≤ (leave (camCase M
        { L with state := moveStep M (tabStep L.state) })).state.faces := by
      have a1 : 3 ≤ L.state.faces + 1 := by omega
      rcases camCase_leave_faces M { L with state := moveStep M (tabStep L.state) }
        with e | e <;> rw [e] <;> dsimp only <;> rw [hf] <;> simp only [e1]
      · split_ifs
        · exact a1
        · exact h3
      · split_ifs with c1 c2 c3
        · rw [e2]; exact h3
        · exact a1
        · have : 3 ≤ L.state.faces - 1 := by omega
          rw [e3]; exact this
        · exact h3
    cases hc : camCase M { L with state := moveStep M (tabStep L.state) } with
    | error L1 =>
      rw [hc] at key
      exact key
    | ok L1 =>
      rw [hc] at key
      dsimp only [leave] at key ⊢
      obtain ⟨r, c, v, ht⟩ := tail_eq L1.state
      rw [ht]
      exact key
  · rw [(process_light_fields M L h).2.2.1]
    exact h3

/-- A per-frame update completes for every face count from 1 to 178956970. -/
theorem process_complete (M : CMath α) (L : MainLoop α) (h1 : 1 ≤ L.state.faces)
    (h2 : L.state.faces ≤ 178956970) : ∃ L1, process M L = .ok L1 := by
  obtain ⟨p, hp⟩ := moveStep_eq M (tabStep L.state)
  have hf : (moveStep M (tabStep L.state)).faces = L.state.faces := by
    rw [hp]; exact (tabStep_rest L.state).1
  cases h : (tabStep L.state).mode
  · obtain ⟨C, hC⟩ := camCase_complete M { L with state := moveStep M (tabStep L.state) }
      (by show 1 ≤ (moveStep M (tabStep L.state)).faces; rw [hf]; exact h1)
      (by show (moveStep M (tabStep L.state)).faces ≤ 178956970; rw [hf]; exact h2)
    rw [process_cam M L h, hC]
    exact ⟨_, rfl⟩
  · exact ⟨_, process_light M L h⟩

/-- A completed per-frame update in CAM mode: its CAM branch completed, and the tail of the
block ran on what it left. -/
theorem process_ok_cam (M : CMath α) (L L1 : MainLoop α)
    (h : (tabStep L.state).mode = Mode.CAM) (hp : process M L = .ok L1) :
    ∃ C, camCase M { L with state := moveStep M (tabStep L.state) } = .ok C ∧
      L1.state = updateUB (clrStep (rotStep C.state)) := by
  rw [process_cam M L h] at hp
  cases hc : camCase M { L with state := moveStep M (tabStep L.state) } with
  | error C =>
    rw [hc] at hp
    cases hp
  | ok C =>
    rw [hc] at hp
    injection hp with hp
    subst hp
    exact ⟨C, rfl, rfl⟩

/-- The face count after a completed per-frame update. -/
theorem process_ok_faces (M : CMath α) (L L1 : MainLoop α) (hp : process M L = .ok L1) :
    L1.state.faces =
      match (tabStep L.state).mode with
      | .LIGHT => L.state.faces
      | .CAM =>
        if L.state.keys.right_click = true then
          (if (if L.state.keys.left_click = true then wrapInt (L.state.faces + 1)
                else L.state.faces) > 3
            then wrapInt ((if L.state.keys.left_click = true then wrapInt (L.state.faces + 1)
                else L.state.faces) - 1)
            else (if L.state.keys.left_click = true then wrapInt (L.state.faces + 1)
                else L.state.faces))
        else (if L.state.keys.left_click = true then wrapInt (L.state.faces + 1)
                else L.state.faces) := by
  obtain ⟨p, hm⟩ := moveStep_eq M (tabStep L.state)
  cases h : (tabStep L.state).mode
  · obtain ⟨C, hC, e⟩ := process_ok_cam M L L1 h hp
    obtain ⟨r, c, v, ht⟩ := tail_eq C.state
    rw [e, ht, camCase_ok M _ C hC]
    simp only [hm, State.setViewPos, tabStep_keys, (tabStep_rest L.state).1]
  · have e := (process_light_fields M L h).2.2.1
    rw [hp] at e
    exact e

/-- The key flags after a completed per-frame update. -/
theorem process_ok_keys (M : CMath α) (L L1 : MainLoop α) (hp : process M L = .ok L1) :
    L1.state.keys =
      match (tabStep L.state).mode with
      | .LIGHT => { L.state.keys with tab := false }
      | .CAM => { L.state.keys with tab := false, left_click := false, right_click := false } := by
  obtain ⟨p, hm⟩ := moveStep_eq M (tabStep L.state)
  cases h : (tabStep L.state).mode
  · obtain ⟨C, hC, e⟩ := process_ok_cam M L L1 h hp
    obtain ⟨r, c, v, ht⟩ := tail_eq C.state
    rw [e, ht, camCase_ok M _ C hC]
    simp only [hm, State.setViewPos, tabStep_keys]
  · have e := (process_light_fields M L h).2.2.2.1
    rw [hp] at e
    exact e

end ProcessLemmas
/-! ## The face count -/

/-- C4: from a state with `3 ≤ faces` and `faces` below the `int` maximum, the per-frame
update leaves `3 ≤ faces`, whatever keys and buttons are held and whatever the mode, whether
it runs to its end or is left by the exception of `genVerts`, also when events are polled
first; the initial state has `faces = 4`; from `faces = 3` in CAM mode with the right button
flagged (left button and tab clear) the update completes and leaves `faces` at 3; and every
update completes while `faces ≤ 178956970`. -/
theorem faces_floor {α : Type} [LinearOrderedField α] [FloorRing α] (M : CMath α)
    (L : MainLoop α) (h3 : 3 ≤ L.state.faces) (hmax : L.state.faces < 2147483647) :
    3 ≤ (leave (process M L)).state.faces ∧
    (∀ (ms : Int) (evs : List (Event α)), 3 ≤ (leave (frame M ms evs L)).state.faces) ∧
    (∀ (width height : Int) (xpos ypos : α),
      (State.init width height xpos ypos).faces = 4) ∧
    (L.state.faces = 3 → L.state.mode = Mode.CAM → L.state.keys.tab = false →
      L.state.keys.left_click = false → L.state.keys.right_click = true →
      ∃ L1, process M L = .ok L1 ∧ L1.state.faces = 3) ∧
    (L.state.faces ≤ 178956970 → ∃ L1, process M L = .ok L1) := by
  refine ⟨process_faces_ge M L h3 hmax, ?_, fun _ _ _ _ => rfl, ?_,
    fun h => process_complete M L (by omega) h⟩
  · intro ms evs
    have e := (pollEvents_rest M evs { L.state with dt := (ms : α) }).1
    exact process_faces_ge M _ (by rw [e]; exact h3) (by rw [e]; exact hmax)
  · intro hf hm ht hl hr
    have hmode : (tabStep L.state).mode = Mode.CAM := by
      rw [tabStep_mode, ht]; exact hm
    obtain ⟨L1, h1⟩ := process_complete M L (by omega) (by omega)
    refine ⟨L1, h1, ?_⟩
    rw [process_ok_faces M L L1 h1, hmode]
    simp [hl, hr, hf]

/-- Witness of C4: the initial state with `faces` set to 3 and the right button flagged. -/
theorem faces_floor_witness :
    ∃ L1, process (⟨Real.sin, Real.cos, Real.sqrt, Real.pi⟩ : CMath ℝ)
      { state := { (State.init 1600 900 0 0 : State ℝ) with
                   faces := 3
                   keys := { (State.init 1600 900 0 0 : State ℝ).keys with right_click := true } }
        vertices := [] } = .ok L1 ∧ L1.state.faces = 3 :=
  (faces_floor ⟨Real.sin, Real.cos, Real.sqrt, Real.pi⟩
    { state := { (State.init 1600 900 0 0 : State ℝ) with
                 faces := 3
                 keys := { (State.init 1600 900 0 0 : State ℝ).keys with right_click := true } }
      vertices := [] } (by decide) (by decide)).2.2.2.1 rfl rfl rfl rfl rfl

/-! ## Mouse look -/

/-- C5: after `cursorPosCallback` the pitch lies in `[-89, 89]`; it is exactly 89 when
`pitch + yoffset` exceeds 89, exactly -89 when it falls below -89, and `pitch + yoffset`
otherwise, with `yoffset = -(ypos - last_ypos) * sens`; the yaw is
`yaw + (xpos - last_xpos) * sens`, unclamped. -/
theorem cursorPos_pitch_yaw {α : Type} [LinearOrderedField α] (M : CMath α) (s : State α)
    (xpos ypos : α) :
    -89 ≤ (cursorPosCallback M xpos ypos s).mouse.pitch ∧
    (cursorPosCallback M xpos ypos s).mouse.pitch ≤ 89 ∧
    (89 < s.mouse.pitch + (-(ypos - s.mouse.last_ypos)) * s.mouse.sens →
      (cursorPosCallback M xpos ypos s).mouse.pitch = 89) ∧
    (s.mouse.pitch + (-(ypos - s.mouse.last_ypos)) * s.mouse.sens < -89 →
      (cursorPosCallback M xpos ypos s).mouse.pitch = -89) ∧
    (-89 ≤ s.mouse.pitch + (-(ypos - s.mouse.last_ypos)) * s.mouse.sens →
      s.mouse.pitch + (-(ypos - s.mouse.last_ypos)) * s.mouse.sens ≤ 89 →
      (cursorPosCallback M xpos ypos s).mouse.pitch =
        s.mouse.pitch + (-(ypos - s.mouse.last_ypos)) * s.mouse.sens) ∧
    (cursorPosCallback M xpos ypos s).mouse.yaw =
      s.mouse.yaw + (xpos - s.mouse.last_xpos) * s.mouse.sens := by
  have hp : (cursorPosCallback M xpos ypos s).mouse.pitch =
      clamp (s.mouse.pitch + (-(ypos - s.mouse.last_ypos)) * s.mouse.sens) (-89) 89 := rfl
  rw [hp]
  generalize s.mouse.pitch + (-(ypos - s.mouse.last_ypos)) * s.mouse.sens = v
  have h89 : (-89 : α) < 89 := by norm_num
  unfold clamp
  refine ⟨?_, ?_, ?_, ?_, ?_, rfl⟩
  · split_ifs with h1 h2
    · exact le_refl _
    · exact h89.le
    · exact not_lt.mp h1
  · split_ifs with h1 h2
    · exact h89.le
    · exact le_refl _
    · exact not_lt.mp h2
  · intro h
    rw [if_neg (not_lt.mpr (h89.le.trans h.le)), if_pos h]
  · intro h
    rw [if_pos h]
  · intro h1 h2
    rw [if_neg (not_lt.mpr h1), if_neg (not_lt.mpr h2)]

/-- Witness of C5: from the initial state a cursor sample 1000 units up asks for a pitch of
100 degrees and is clamped to 89. -/
theorem cursorPos_pitch_yaw_witness :
    (cursorPosCallback (⟨Real.sin, Real.cos, Real.sqrt, Real.pi⟩ : CMath ℝ) 0 (-1000)
      (State.init 1600 900 0 0)).mouse.pitch = 89 :=
  (cursorPos_pitch_yaw ⟨Real.sin, Real.cos, Real.sqrt, Real.pi⟩ (State.init 1600 900 0 0)
    0 (-1000)).2.2.1
    (by show (89 : ℝ) < 0 + (-(-1000 - 0)) * (1 / 10); norm_num)

/-! ## Mode toggle -/

section ToggleLemmas

variable {α : Type} [LinearOrderedField α] [FloorRing α]

/-- A frame that ends in LIGHT mode completes and leaves `cam_pos` alone. -/
theorem frame_light_cam_pos (M : CMath α) (ms : Int) (evs : List (Event α)) (L : MainLoop α)
    (h : (leave (frame M ms evs L)).state.mode = Mode.LIGHT) :
    frame M ms evs L = .ok (leave (frame M ms evs L)) ∧
    (leave (frame M ms evs L)).state.cam_pos = L.state.cam_pos := by
  unfold frame at h ⊢
  rw [process_mode] at h
  obtain ⟨h1, h2, _⟩ := process_light_fields M _ h
  exact ⟨h1, h2.trans (pollEvents_rest M evs _).2.2.1⟩

/-- A frame that ends in CAM mode, at its end or by an exception, leaves `ub.light_pos`
alone. -/
theorem frame_cam_light_pos (M : CMath α) (ms : Int) (evs : List (Event α)) (L : MainLoop α)
    (h : (leave (frame M ms evs L)).state.mode = Mode.CAM) :
    (leave (frame M ms evs L)).state.ub.light_pos = L.state.ub.light_pos := by
  unfold frame at h ⊢
  rw [process_mode] at h
  rw [(process_cam_fields M _ h).2.2.1]
  exact congrArg UniformBuffer.light_pos (pollEvents_rest M evs _).2.2.2.1

/-- A run whose first frame completes continues from the state that frame leaves. -/
theorem run_cons_ok (M : CMath α) (f : Int × List (Event α)) (fs : List (Int × List (Event α)))
    (L L1 : MainLoop α) (h : frame M f.1 f.2 L = .ok L1) :
    run M L (f :: fs) = run M L1 fs := by
  simp only [run, h]

/-- A run of frames that stay in LIGHT mode completes and leaves `cam_pos` alone. -/
theorem run_light_cam_pos (M : CMath α) (fs : List (Int × List (Event α))) (L : MainLoop α)
    (h : ∀ k, k ≤ fs.length → (leave (run M L (fs.take k))).state.mode = Mode.LIGHT) :
    run M L fs = .ok (leave (run M L fs)) ∧
    (leave (run M L fs)).state.cam_pos = L.state.cam_pos := by
  induction fs generalizing L with
  | nil => exact ⟨rfl, rfl⟩
  | cons f fs ih =>
    have h1 : (leave (frame M f.1 f.2 L)).state.mode = Mode.LIGHT := by
      have := h 1 (by simp)
      rw [List.take_succ_cons, List.take_zero] at this
      cases hf : frame M f.1 f.2 L with
      | error L1 =>
        simp only [run, hf, leave] at this
        simpa [leave] using this
      | ok L1 =>
        simp only [run, hf, leave] at this
        simpa [leave] using this
    obtain ⟨hok, hcam⟩ := frame_light_cam_pos M f.1 f.2 L h1
    have h2 : ∀ k, k ≤ fs.length →
        (leave (run M (leave (frame M f.1 f.2 L)) (fs.take k))).state.mode = Mode.LIGHT := by
      intro k hk
      have := h (k + 1) (by simpa using hk)
      rw [List.take_succ_cons, run_cons_ok M f _ L _ hok] at this
      exact this
    rw [run_cons_ok M f fs L _ hok]
    obtain ⟨i1, i2⟩ := ih _ h2
    exact ⟨i1, i2.trans hcam⟩

end ToggleLemmas

section ToggleSimp

variable {α : Type} [LinearOrderedField α] [FloorRing α]

/-- The key flags after a per-frame update in LIGHT mode. -/
theorem process_light_keys (M : CMath α) (L : MainLoop α)
    (h : (tabStep L.state).mode = Mode.LIGHT) :
    (leave (process M L)).state.keys = { L.state.keys with tab := false } :=
  (process_light_fields M L h).2.2.2.1

/-- A run whose first frame ends in LIGHT mode continues from the state that frame leaves. -/
theorem run_cons_light (M : CMath α) (f : Int × List (Event α))
    (fs : List (Int × List (Event α))) (L : MainLoop α)
    (h : (leave (frame M f.1 f.2 L)).state.mode = Mode.LIGHT) :
    run M L (f :: fs) = run M (leave (frame M f.1 f.2 L)) fs :=
  run_cons_ok M f fs L _ (frame_light_cam_pos M f.1 f.2 L h).1

/-- A completed update is the state it leaves. -/
theorem ok_leave_of_ok {σ : Type} (r : Except σ σ) (h : ∃ s, r = .ok s) : r = .ok (leave r) := by
  obtain ⟨s, rfl⟩ := h
  rfl

omit [LinearOrderedField α] in
theorem leave_ok (L : MainLoop α) : leave (Except.ok L : Except (MainLoop α) (MainLoop α)) = L :=
  rfl

theorem run_nil (M : CMath α) (L : MainLoop α) : run M L [] = .ok L := rfl

end ToggleSimp

/-- C6: from a CAM-mode state with camera position `p`, a frame whose polled events leave
tab set completes and switches to LIGHT; any run of further frames that stay in LIGHT mode,
whatever its events and elapsed times, completes and leaves `cam_pos = p`; and the next frame
with tab set and no movement key held returns to CAM with `view.pos = cam_pos = p`, whether
it runs to its end or is left by the exception of `genVerts` (it runs to its end while
`1 ≤ faces ≤ 178956970`).  Symmetrically every frame that ends in CAM mode leaves the light
position unchanged. -/
theorem mode_toggle_preserves_positions {α : Type} [LinearOrderedField α] [FloorRing α]
    (M : CMath α) (L : MainLoop α) (p : Vec3 α)
    (hmode : L.state.mode = Mode.CAM) (hp : L.state.cam_pos = p)
    (ms0 : Int) (evs0 : List (Event α))
    (htab0 : (pollEvents M evs0 { L.state with dt := (ms0 : α) }).keys.tab = true)
    (fs : List (Int × List (Event α)))
    (hlight : ∀ k, 1 ≤ k → k ≤ fs.length →
      (leave (run M (leave (frame M ms0 evs0 L)) (fs.take k))).state.mode = Mode.LIGHT)
    (ms1 : Int) (evs1 : List (Event α))
    (htab1 : (pollEvents M evs1
      { (leave (run M (leave (frame M ms0 evs0 L)) fs)).state with
        dt := (ms1 : α) }).keys.tab = true)
    (hidle : (pollEvents M evs1
        { (leave (run M (leave (frame M ms0 evs0 L)) fs)).state with
          dt := (ms1 : α) }).keys.w = false ∧
      (pollEvents M evs1
        { (leave (run M (leave (frame M ms0 evs0 L)) fs)).state with
          dt := (ms1 : α) }).keys.s = false ∧
      (pollEvents M evs1
        { (leave (run M (leave (frame M ms0 evs0 L)) fs)).state with
          dt := (ms1 : α) }).keys.a = false ∧
      (pollEvents M evs1
        { (leave (run M (leave (frame M ms0 evs0 L)) fs)).state with
          dt := (ms1 : α) }).keys.d = false ∧
      (pollEvents M evs1
        { (leave (run M (leave (frame M ms0 evs0 L)) fs)).state with
          dt := (ms1 : α) }).keys.space = false ∧
      (pollEvents M evs1
        { (leave (run M (leave (frame M ms0 evs0 L)) fs)).state with
          dt := (ms1 : α) }).keys.shift = false) :
    frame M ms0 evs0 L = .ok (leave (frame M ms0 evs0 L)) ∧
    (leave (frame M ms0 evs0 L)).state.mode = Mode.LIGHT ∧
    (leave (frame M ms0 evs0 L)).state.cam_pos = p ∧
    run M (leave (frame M ms0 evs0 L)) fs =
      .ok (leave (run M (leave (frame M ms0 evs0 L)) fs)) ∧
    (leave (run M (leave (frame M ms0 evs0 L)) fs)).state.mode = Mode.LIGHT ∧
    (leave (run M (leave (frame M ms0 evs0 L)) fs)).state.cam_pos = p ∧
    (leave (frame M ms1 evs1
      (leave (run M (leave (frame M ms0 evs0 L)) fs)))).state.mode = Mode.CAM ∧
    (leave (frame M ms1 evs1
      (leave (run M (leave (frame M ms0 evs0 L)) fs)))).state.view.pos = p ∧
    (leave (frame M ms1 evs1
      (leave (run M (leave (frame M ms0 evs0 L)) fs)))).state.cam_pos = p ∧
    (1 ≤ (leave (run M (leave (frame M ms0 evs0 L)) fs)).state.faces →
      (leave (run M (leave (frame M ms0 evs0 L)) fs)).state.faces ≤ 178956970 →
      frame M ms1 evs1 (leave (run M (leave (frame M ms0 evs0 L)) fs)) =
        .ok (leave (frame M ms1 evs1 (leave (run M (leave (frame M ms0 evs0 L)) fs))))) ∧
    (∀ (L' : MainLoop α) (ms : Int) (evs : List (Event α)),
      (leave (frame M ms evs L')).state.mode = Mode.CAM →
      (leave (frame M ms evs L')).state.ub.light_pos.xyz = L'.state.ub.light_pos.xyz) := by
  have hA : (leave (frame M ms0 evs0 L)).state.mode = Mode.LIGHT := by
    unfold frame
    rw [process_mode, tabStep_mode, htab0, (pollEvents_rest M evs0 _).2.1]
    show (match L.state.mode with
      | Mode.LIGHT => Mode.CAM | Mode.CAM => Mode.LIGHT) = Mode.LIGHT
    rw [hmode]
  obtain ⟨hA0, hB0⟩ := frame_light_cam_pos M ms0 evs0 L hA
  have hB : (leave (frame M ms0 evs0 L)).state.cam_pos = p := hB0.trans hp
  have hlight2 : ∀ k, k ≤ fs.length →
      (leave (run M (leave (frame M ms0 evs0 L)) (fs.take k))).state.mode = Mode.LIGHT := by
    intro k hk
    rcases Nat.eq_zero_or_pos k with h0 | h0
    · rw [h0]
      simpa [run, leave] using hA
    · exact hlight k h0 hk
  have hC : (leave (run M (leave (frame M ms0 evs0 L)) fs)).state.mode = Mode.LIGHT := by
    have := hlight2 fs.length (le_refl _)
    simpa using this
  obtain ⟨hD0, hD1⟩ := run_light_cam_pos M fs _ hlight2
  have hD : (leave (run M (leave (frame M ms0 evs0 L)) fs)).state.cam_pos = p := hD1.trans hB
  -- the frame that toggles back
  obtain ⟨hPfaces, hPmode, hPcam, _, _, _⟩ := pollEvents_rest M evs1
    { (leave (run M (leave (frame M ms0 evs0 L)) fs)).state with dt := (ms1 : α) }
  have hT : (tabStep (pollEvents M evs1
      { (leave (run M (leave (frame M ms0 evs0 L)) fs)).state with
        dt := (ms1 : α) })).mode = Mode.CAM := by
    rw [tabStep_mode, htab1, hPmode]
    show (match (leave (run M (leave (frame M ms0 evs0 L)) fs)).state.mode with
      | Mode.LIGHT => Mode.CAM | Mode.CAM => Mode.LIGHT) = Mode.CAM
    rw [hC]
  have hV : (tabStep (pollEvents M evs1
      { (leave (run M (leave (frame M ms0 evs0 L)) fs)).state with
        dt := (ms1 : α) })).view.pos = p := by
    rw [tabStep_view_pos, htab1, hPmode]
    show (match (leave (run M (leave (frame M ms0 evs0 L)) fs)).state.mode with
      | Mode.LIGHT => _ | Mode.CAM => _) = p
    rw [hC]
    show (pollEvents M evs1 _).cam_pos = p
    rw [hPcam]
    exact hD
  have hI : moveStep M (tabStep (pollEvents M evs1
      { (leave (run M (leave (frame M ms0 evs0 L)) fs)).state with dt := (ms1 : α) })) =
      tabStep (pollEvents M evs1
      { (leave (run M (leave (frame M ms0 evs0 L)) fs)).state with dt := (ms1 : α) }) := by
    obtain ⟨h1, h2, h3, h4, h5, h6⟩ := hidle
    apply moveStep_idle <;> rw [tabStep_keys] <;> assumption
  obtain ⟨hF1, hF2, _, _⟩ := process_cam_fields M
    { leave (run M (leave (frame M ms0 evs0 L)) fs) with
      state := (pollEvents M evs1
        { (leave (run M (leave (frame M ms0 evs0 L)) fs)).state with dt := (ms1 : α) }) } hT
  refine ⟨hA0, hA, hB, hD0, hC, hD, ?_, ?_, ?_, ?_, ?_⟩
  · unfold frame
    rw [process_mode]
    exact hT
  · exact hF2.trans (by rw [hI]; exact hV)
  · exact hF1.trans (by rw [hI]; exact hV)
  · intro g1 g2
    apply ok_leave_of_ok
    unfold frame
    exact process_complete M _ (le_of_le_of_eq g1 hPfaces.symm) (le_of_eq_of_le hPfaces g2)
  · intro L' ms evs h
    rw [frame_cam_light_pos M ms evs L' h]

/-- Witness of C6: from the initial state, tab is pressed, the light is moved forward for one
frame, and tab is pressed again with the movement key released: the camera is back at
`(0, 0, 2)`. -/
theorem mode_toggle_preserves_positions_witness :
    (leave (frame (⟨Real.sin, Real.cos, Real.sqrt, Real.pi⟩ : CMath ℝ) 16
      [Event.key Key.W Action.RELEASE, Event.key Key.TAB Action.PRESS]
      (leave (run ⟨Real.sin, Real.cos, Real.sqrt, Real.pi⟩
        (leave (frame ⟨Real.sin, Real.cos, Real.sqrt, Real.pi⟩ 16
          [Event.key Key.TAB Action.PRESS]
          (mainInit ⟨Real.sin, Real.cos, Real.sqrt, Real.pi⟩ 1600 900 0 0)))
        [(16, [Event.key Key.W Action.PRESS])])))).state.cam_pos = ⟨0, 0, 2⟩ :=
  (mode_toggle_preserves_positions ⟨Real.sin, Real.cos, Real.sqrt, Real.pi⟩
    (mainInit ⟨Real.sin, Real.cos, Real.sqrt, Real.pi⟩ 1600 900 0 0) ⟨0, 0, 2⟩ rfl rfl
    16 [Event.key Key.TAB Action.PRESS] rfl
    [(16, [Event.key Key.W Action.PRESS])]
    (by
      intro k h1 hk
      have hk1 : k = 1 := le_antisymm hk h1
      subst hk1
      simp [run_nil, leave_ok, run_cons_light, frame, process_mode, process_light_keys, tabStep_mode,
        pollEvents, applyEvent, keyCallback, keyCallbackKeys, switchAction, mainInit,
        State.init, updateUB])
    16 [Event.key Key.W Action.RELEASE, Event.key Key.TAB Action.PRESS]
    (by
      simp [run_nil, leave_ok, run_cons_light, frame, process_mode, process_light_keys, tabStep_mode,
        pollEvents, applyEvent, keyCallback, keyCallbackKeys, switchAction, mainInit,
        State.init, updateUB])
    (by
      simp [run_nil, leave_ok, run_cons_light, frame, process_mode, process_light_keys, tabStep_mode,
        pollEvents, applyEvent, keyCallback, keyCallbackKeys, switchAction, mainInit,
        State.init, updateUB])).2.2.2.2.2.2.2.2.1

/-! ## Colour channels -/

section ColourLemmas

variable {α : Type} [LinearOrderedField α]

/-- A value that fails the guard `x > 1` is returned as it is. -/
theorem whileGtOne_of_le (n : Nat) (x : α) (h : x ≤ 1) : whileGtOne n x = x := by
  cases n with
  | zero => rfl
  | succ n => simp [whileGtOne, not_lt.mpr h]

/-- With fuel `n ≥ x` the loop has left through its guard, having subtracted a whole number
of units. -/
theorem whileGtOne_spec (n : Nat) (x : α) (h : x ≤ n) :
    whileGtOne n x ≤ 1 ∧ (0 ≤ x → 0 ≤ whileGtOne n x) ∧ (1 < x → 0 < whileGtOne n x) ∧
    ∃ k : Nat, whileGtOne n x = x - k := by
  induction n generalizing x with
  | zero =>
    have hx : x ≤ 0 := by simpa using h
    refine ⟨hx.trans zero_le_one, fun h0 => h0, fun h1 => ?_, 0, by simp [whileGtOne]⟩
    exact absurd (lt_of_lt_of_le h1 (hx.trans zero_le_one)) (lt_irrefl _)
  | succ n ih =>
    by_cases hx : 1 < x
    · have e : whileGtOne (n + 1) x = whileGtOne n (x - 1) := by
        simp [whileGtOne, hx]
      have hn : x - 1 ≤ n := by
        push_cast at h
        linarith
      obtain ⟨i1, i2, i3, k, i4⟩ := ih (x - 1) hn
      have hpos : 0 < whileGtOne n (x - 1) := by
        by_cases h2 : 1 < x - 1
        · exact i3 h2
        · rw [whileGtOne_of_le n _ (not_lt.mp h2)]
          linarith
      rw [e]
      refine ⟨i1, fun _ => hpos.le, fun _ => hpos, k + 1, ?_⟩
      rw [i4]
      push_cast
      ring
    · have e : whileGtOne (n + 1) x = x := whileGtOne_of_le _ _ (not_lt.mp hx)
      rw [e]
      exact ⟨not_lt.mp hx, fun h0 => h0, fun h1 => absurd h1 hx, 0, by simp⟩

/-- Any fuel `n ≥ x` gives the result of the loop. -/
theorem whileGtOne_fuel (m n : Nat) (x : α) (hm : x ≤ m) (hn : x ≤ n) :
    whileGtOne m x = whileGtOne n x := by
  induction m generalizing n x with
  | zero =>
    have hx : x ≤ 1 := (by simpa using hm : x ≤ 0).trans zero_le_one
    rw [whileGtOne_of_le _ _ hx, whileGtOne_of_le _ _ hx]
  | succ m ih =>
    by_cases hx : 1 < x
    · cases n with
      | zero =>
        have : x ≤ 0 := by simpa using hn
        linarith
      | succ n =>
        have e1 : whileGtOne (m + 1) x = whileGtOne m (x - 1) := by simp [whileGtOne, hx]
        have e2 : whileGtOne (n + 1) x = whileGtOne n (x - 1) := by simp [whileGtOne, hx]
        rw [e1, e2]
        push_cast at hm hn
        exact ih n (x - 1) (by linarith) (by linarith)
    · rw [whileGtOne_of_le _ _ (not_lt.mp hx), whileGtOne_of_le _ _ (not_lt.mp hx)]

/-- The colour block equals the loop run with any sufficient fuel. -/
theorem clrChannel_eq [FloorRing α] (c dt : α) (n : Nat) (h : c + clr_speed * dt ≤ n) :
    clrChannel c dt = whileGtOne n (c + clr_speed * dt) :=
  whileGtOne_fuel _ _ _ (Nat.le_ceil _) h

/-- The colour block leaves a value in `[0,1]`, a whole number of units below
`c + clr_speed * dt`. -/
theorem clrChannel_spec [FloorRing α] (c dt : α) (hc : 0 ≤ c) (hinc : 0 ≤ clr_speed * dt) :
    0 ≤ clrChannel c dt ∧ clrChannel c dt ≤ 1 ∧
    ∃ k : Nat, clrChannel c dt = c + clr_speed * dt - k := by
  obtain ⟨i1, i2, _, i4⟩ := whileGtOne_spec ⌈c + clr_speed * dt⌉₊ (c + clr_speed * dt)
    (Nat.le_ceil _)
  exact ⟨i2 (add_nonneg hc hinc), i1, i4⟩

end ColourLemmas

section ColourProcess

variable {α : Type} [LinearOrderedField α] [FloorRing α]

/-- The light colour after the three colour blocks. -/
theorem clrStep_light_clr (s : State α) :
    (clrStep s).ub.light_clr =
      ⟨if s.keys.red = true then clrChannel s.ub.light_clr.x s.dt else s.ub.light_clr.x,
       if s.keys.green = true then clrChannel s.ub.light_clr.y s.dt else s.ub.light_clr.y,
       if s.keys.blue = true then clrChannel s.ub.light_clr.z s.dt else s.ub.light_clr.z,
       s.ub.light_clr.w⟩ := by
  unfold clrStep
  rcases Bool.eq_false_or_eq_true s.keys.red with hr | hr <;>
    rcases Bool.eq_false_or_eq_true s.keys.green with hg | hg <;>
    rcases Bool.eq_false_or_eq_true s.keys.blue with hb | hb <;>
    simp [hr, hg, hb, State.setLightClr]

/-- The light colour, the elapsed time and the key flags after the tail of the process block
(rotation, colour, `updateUB`). -/
theorem tail_light_clr (s : State α) :
    (updateUB (clrStep (rotStep s))).ub.light_clr =
      ⟨if s.keys.red = true then clrChannel s.ub.light_clr.x s.dt else s.ub.light_clr.x,
       if s.keys.green = true then clrChannel s.ub.light_clr.y s.dt else s.ub.light_clr.y,
       if s.keys.blue = true then clrChannel s.ub.light_clr.z s.dt else s.ub.light_clr.z,
       s.ub.light_clr.w⟩ ∧
    (updateUB (clrStep (rotStep s))).dt = s.dt ∧
    (updateUB (clrStep (rotStep s))).keys = s.keys := by
  obtain ⟨r, hr⟩ := rotStep_eq s
  obtain ⟨c, hc⟩ := clrStep_eq (rotStep s)
  refine ⟨?_, ?_, ?_⟩
  · show (clrStep (rotStep s)).ub.light_clr = _
    rw [clrStep_light_clr, hr]
    rfl
  · rw [hc, hr]; rfl
  · rw [hc, hr]; rfl

/-- The light colour, the elapsed time and the colour keys after a completed per-frame
update. -/
theorem process_ok_light_clr (M : CMath α) (L L1 : MainLoop α) (hp : process M L = .ok L1) :
    L1.state.ub.light_clr =
      ⟨if L.state.keys.red = true then clrChannel L.state.ub.light_clr.x L.state.dt
         else L.state.ub.light_clr.x,
       if L.state.keys.green = true then clrChannel L.state.ub.light_clr.y L.state.dt
         else L.state.ub.light_clr.y,
       if L.state.keys.blue = true then clrChannel L.state.ub.light_clr.z L.state.dt
         else L.state.ub.light_clr.z,
       L.state.ub.light_clr.w⟩ ∧
    L1.state.dt = L.state.dt ∧
    L1.state.keys.red = L.state.keys.red ∧
    L1.state.keys.green = L.state.keys.green ∧
    L1.state.keys.blue = L.state.keys.blue := by
  obtain ⟨p, hm⟩ := moveStep_eq M (tabStep L.state)
  obtain ⟨_, _, hub, hdt⟩ := tabStep_rest L.state
  have hk := tabStep_keys L.state
  have key : ∀ s : State α, s.ub.light_clr = L.state.ub.light_clr → s.dt = L.state.dt →
      s.keys.red = L.state.keys.red → s.keys.green = L.state.keys.green →
      s.keys.blue = L.state.keys.blue → L1.state = updateUB (clrStep (rotStep s)) →
      L1.state.ub.light_clr =
        ⟨if L.state.keys.red = true then clrChannel L.state.ub.light_clr.x L.state.dt
           else L.state.ub.light_clr.x,
         if L.state.keys.green = true then clrChannel L.state.ub.light_clr.y L.state.dt
           else L.state.ub.light_clr.y,
         if L.state.keys.blue = true then clrChannel L.state.ub.light_clr.z L.state.dt
           else L.state.ub.light_clr.z,
         L.state.ub.light_clr.w⟩ ∧
      L1.state.dt = L.state.dt ∧
      L1.state.keys.red = L.state.keys.red ∧
      L1.state.keys.green = L.state.keys.green ∧
      L1.state.keys.blue = L.state.keys.blue := by
    intro s a1 a2 a3 a4 a5 e
    obtain ⟨t1, t2, t3⟩ := tail_light_clr s
    rw [e, t1, t2, t3, a1, a2, a3, a4, a5]
    exact ⟨rfl, rfl, rfl, rfl, rfl⟩
  have s1ub : (moveStep M (tabStep L.state)).ub = L.state.ub := by rw [hm]; exact hub
  have s1dt : (moveStep M (tabStep L.state)).dt = L.state.dt := by rw [hm]; exact hdt
  have s1k : (moveStep M (tabStep L.state)).keys = { L.state.keys with tab := false } := by
    rw [hm]; exact hk
  cases h : (tabStep L.state).mode
  · obtain ⟨C, hC, e⟩ := process_ok_cam M L L1 h hp
    have hCs := camCase_ok M _ C hC
    apply key C.state _ _ _ _ _ e
    · rw [hCs]; show (moveStep M (tabStep L.state)).ub.light_clr = _; rw [s1ub]
    · rw [hCs]; exact s1dt
    · rw [hCs]; show (moveStep M (tabStep L.state)).keys.red = _; rw [s1k]
    · rw [hCs]; show (moveStep M (tabStep L.state)).keys.green = _; rw [s1k]
    · rw [hCs]; show (moveStep M (tabStep L.state)).keys.blue = _; rw [s1k]
  · have e : L1.state = updateUB (clrStep (rotStep (lightCase (moveStep M (tabStep L.state))))) := by
      rw [process_light M L h] at hp
      injection hp with hp
      rw [← hp]
    apply key _ _ _ _ _ _ e
    · rw [lightCase_eq]; show (moveStep M (tabStep L.state)).ub.light_clr = _; rw [s1ub]
    · rw [lightCase_eq]; exact s1dt
    · rw [lightCase_eq]; show (moveStep M (tabStep L.state)).keys.red = _; rw [s1k]
    · rw [lightCase_eq]; show (moveStep M (tabStep L.state)).keys.green = _; rw [s1k]
    · rw [lightCase_eq]; show (moveStep M (tabStep L.state)).keys.blue = _; rw [s1k]

/-- A per-frame update with no mouse button flagged completes. -/
theorem process_noclick (M : CMath α) (L : MainLoop α)
    (hl : L.state.keys.left_click = false) (hr : L.state.keys.right_click = false) :
    ∃ L1, process M L = .ok L1 := by
  obtain ⟨p, hm⟩ := moveStep_eq M (tabStep L.state)
  have hk := tabStep_keys L.state
  cases h : (tabStep L.state).mode
  · rw [process_cam M L h,
      camCase_noclick M { L with state := moveStep M (tabStep L.state) }
        (by show (moveStep M (tabStep L.state)).keys.left_click = false
            rw [hm]; show (tabStep L.state).keys.left_click = false; rw [hk]; exact hl)
        (by show (moveStep M (tabStep L.state)).keys.right_click = false
            rw [hm]; show (tabStep L.state).keys.right_click = false; rw [hk]; exact hr)]
    exact ⟨_, rfl⟩
  · exact ⟨_, process_light M L h⟩

/-- Two per-frame updates in a row complete for every face count from 1 to 178956970: a
completed CAM update has cleared both click flags, a LIGHT update leaves `faces` alone. -/
theorem process_complete_twice (M : CMath α) (L : MainLoop α) (h1 : 1 ≤ L.state.faces)
    (h2 : L.state.faces ≤ 178956970) :
    ∃ L1 L2, process M L = .ok L1 ∧ process M L1 = .ok L2 := by
  obtain ⟨L1, e1⟩ := process_complete M L h1 h2
  have hk := process_ok_keys M L L1 e1
  have hf := process_ok_faces M L L1 e1
  cases hm : (tabStep L.state).mode
  · rw [hm] at hk
    obtain ⟨L2, e2⟩ := process_noclick M L1 (by rw [hk]) (by rw [hk])
    exact ⟨L1, L2, e1, e2⟩
  · rw [hm] at hf
    obtain ⟨L2, e2⟩ := process_complete M L1 (le_of_le_of_eq h1 hf.symm) (le_of_eq_of_le hf h2)
    exact ⟨L1, L2, e1, e2⟩

/-- Two per-frame updates in a row complete when no mouse button is flagged. -/
theorem process_noclick_twice (M : CMath α) (L : MainLoop α)
    (hl : L.state.keys.left_click = false) (hr : L.state.keys.right_click = false) :
    ∃ L1 L2, process M L = .ok L1 ∧ process M L1 = .ok L2 := by
  obtain ⟨L1, e1⟩ := process_noclick M L hl hr
  have hk := process_ok_keys M L L1 e1
  obtain ⟨L2, e2⟩ := process_noclick M L1
    (by rw [hk]; cases (tabStep L.state).mode
        · rfl
        · exact hl)
    (by rw [hk]; cases (tabStep L.state).mode
        · rfl
        · exact hr)
  exact ⟨L1, L2, e1, e2⟩

end ColourProcess
/-- C7, as stated, fails: from the channel value `0.5` with the red key held and
`dt = 1000` (increment `0.0005 * 1000 = 0.5`) the update completes and leaves `1.0`, because
the loop guard `x > 1.0f` is false at `1.0`; the result is not below 1. -/
theorem clr_channel_wrap_refuted :
    ((0 : ℝ) ≤ 1 / 2 ∧ (1 / 2 : ℝ) < 1) ∧ (0 : ℝ) ≤ clr_speed * 1000 ∧
    process (⟨Real.sin, Real.cos, Real.sqrt, Real.pi⟩ : CMath ℝ)
      { state := { (State.init 1600 900 0 0 : State ℝ) with
                   dt := 1000
                   keys := { (State.init 1600 900 0 0 : State ℝ).keys with red := true }
                   ub := { (State.init 1600 900 0 0 : State ℝ).ub with
                           light_clr := ⟨1 / 2, 1, 1, 1⟩ } }
        vertices := [] } =
      .ok (leave (process (⟨Real.sin, Real.cos, Real.sqrt, Real.pi⟩ : CMath ℝ)
        { state := { (State.init 1600 900 0 0 : State ℝ) with
                     dt := 1000
                     keys := { (State.init 1600 900 0 0 : State ℝ).keys with red := true }
                     ub := { (State.init 1600 900 0 0 : State ℝ).ub with
                             light_clr := ⟨1 / 2, 1, 1, 1⟩ } }
          vertices := [] })) ∧
    (leave (process (⟨Real.sin, Real.cos, Real.sqrt, Real.pi⟩ : CMath ℝ)
      { state := { (State.init 1600 900 0 0 : State ℝ) with
                   dt := 1000
                   keys := { (State.init 1600 900 0 0 : State ℝ).keys with red := true }
                   ub := { (State.init 1600 900 0 0 : State ℝ).ub with
                           light_clr := ⟨1 / 2, 1, 1, 1⟩ } }
        vertices := [] })).state.ub.light_clr.x = 1 ∧
    ¬ ((leave (process (⟨Real.sin, Real.cos, Real.sqrt, Real.pi⟩ : CMath ℝ)
      { state := { (State.init 1600 900 0 0 : State ℝ) with
                   dt := 1000
                   keys := { (State.init 1600 900 0 0 : State ℝ).keys with red := true }
                   ub := { (State.init 1600 900 0 0 : State ℝ).ub with
                           light_clr := ⟨1 / 2, 1, 1, 1⟩ } }
        vertices := [] })).state.ub.light_clr.x < 1) := by
  have hok := ok_leave_of_ok _ (process_noclick (⟨Real.sin, Real.cos, Real.sqrt, Real.pi⟩ : CMath ℝ)
      { state := { (State.init 1600 900 0 0 : State ℝ) with
                   dt := 1000
                   keys := { (State.init 1600 900 0 0 : State ℝ).keys with red := true }
                   ub := { (State.init 1600 900 0 0 : State ℝ).ub with
                           light_clr := ⟨1 / 2, 1, 1, 1⟩ } }
        vertices := [] } rfl rfl)
  have e : (leave (process (⟨Real.sin, Real.cos, Real.sqrt, Real.pi⟩ : CMath ℝ)
      { state := { (State.init 1600 900 0 0 : State ℝ) with
                   dt := 1000
                   keys := { (State.init 1600 900 0 0 : State ℝ).keys with red := true }
                   ub := { (State.init 1600 900 0 0 : State ℝ).ub with
                           light_clr := ⟨1 / 2, 1, 1, 1⟩ } }
        vertices := [] })).state.ub.light_clr.x = 1 := by
    rw [(process_ok_light_clr _ _ _ hok).1]
    show clrChannel (1 / 2 : ℝ) 1000 = 1
    rw [clrChannel_eq (1 / 2 : ℝ) 1000 1 (by norm_num [clr_speed])]
    norm_num [whileGtOne, clr_speed]
  refine ⟨⟨by norm_num, by norm_num⟩, by norm_num [clr_speed], hok, e, ?_⟩
  rw [e]
  exact lt_irrefl _

/-- C7, amended: with a channel's key held, a channel value `c ≥ 0` (in particular any
`c` in `[0,1]`) and a non-negative increment `clr_speed * dt`, one per-frame update leaves
the channel in `[0,1]`, a whole number of units below `c + clr_speed * dt`; and from `0.95`
two updates with increment `0.10` each give `0.05` and then `0.15`.  Two updates in a row
run to their end while `1 ≤ faces ≤ 178956970`, and always when no mouse button is flagged. -/
theorem clr_channel_wrap {α : Type} [LinearOrderedField α] [FloorRing α] (M : CMath α)
    (L : MainLoop α) (hinc : 0 ≤ clr_speed * L.state.dt) :
    (L.state.keys.red = true → 0 ≤ L.state.ub.light_clr.x →
      ∀ L1, process M L = .ok L1 →
      0 ≤ L1.state.ub.light_clr.x ∧ L1.state.ub.light_clr.x ≤ 1 ∧
      ∃ k : Nat, L1.state.ub.light_clr.x =
        L.state.ub.light_clr.x + clr_speed * L.state.dt - k) ∧
    (L.state.keys.green = true → 0 ≤ L.state.ub.light_clr.y →
      ∀ L1, process M L = .ok L1 →
      0 ≤ L1.state.ub.light_clr.y ∧ L1.state.ub.light_clr.y ≤ 1 ∧
      ∃ k : Nat, L1.state.ub.light_clr.y =
        L.state.ub.light_clr.y + clr_speed * L.state.dt - k) ∧
    (L.state.keys.blue = true → 0 ≤ L.state.ub.light_clr.z →
      ∀ L1, process M L = .ok L1 →
      0 ≤ L1.state.ub.light_clr.z ∧ L1.state.ub.light_clr.z ≤ 1 ∧
      ∃ k : Nat, L1.state.ub.light_clr.z =
        L.state.ub.light_clr.z + clr_speed * L.state.dt - k) ∧
    (L.state.keys.red = true → L.state.ub.light_clr.x = 19 / 20 →
      clr_speed * L.state.dt = 1 / 10 →
      ∀ L1 L2, process M L = .ok L1 → process M L1 = .ok L2 →
      L1.state.ub.light_clr.x = 1 / 20 ∧ L2.state.ub.light_clr.x = 3 / 20) ∧
    (1 ≤ L.state.faces → L.state.faces ≤ 178956970 →
      ∃ L1 L2, process M L = .ok L1 ∧ process M L1 = .ok L2) ∧
    (L.state.keys.left_click = false → L.state.keys.right_click = false →
      ∃ L1 L2, process M L = .ok L1 ∧ process M L1 = .ok L2) := by
  refine ⟨?_, ?_, ?_, ?_, process_complete_twice M L, process_noclick_twice M L⟩
  · intro hk hc L1 h1
    rw [(process_ok_light_clr M L L1 h1).1]
    simp only [hk, if_true]
    exact clrChannel_spec _ _ hc hinc
  · intro hk hc L1 h1
    rw [(process_ok_light_clr M L L1 h1).1]
    simp only [hk, if_true]
    exact clrChannel_spec _ _ hc hinc
  · intro hk hc L1 h1
    rw [(process_ok_light_clr M L L1 h1).1]
    simp only [hk, if_true]
    exact clrChannel_spec _ _ hc hinc
  · intro hk hc hd L1 L2 h1 h2
    obtain ⟨c1, d1, d2, _, _⟩ := process_ok_light_clr M L L1 h1
    have e1 : L1.state.ub.light_clr.x = 1 / 20 := by
      rw [c1]
      simp only [hk, if_true]
      rw [clrChannel_eq _ _ 2 (by rw [hc, hd]; norm_num)]
      rw [hc, hd]
      norm_num [whileGtOne]
    refine ⟨e1, ?_⟩
    rw [(process_ok_light_clr M L1 L2 h2).1]
    simp only [d2, hk, if_true, d1, e1]
    rw [clrChannel_eq _ _ 1 (by rw [hd]; norm_num)]
    rw [hd]
    norm_num [whileGtOne]

/-- Witness of C7: the red channel at `0.95`, `dt = 200`, the red key held: two updates
complete and leave `0.15`. -/
theorem clr_channel_wrap_witness :
    ∃ L1 L2 : MainLoop ℝ,
      process (⟨Real.sin, Real.cos, Real.sqrt, Real.pi⟩ : CMath ℝ)
        { state := { (State.init 1600 900 0 0 : State ℝ) with
                     dt := 200
                     keys := { (State.init 1600 900 0 0 : State ℝ).keys with red := true }
                     ub := { (State.init 1600 900 0 0 : State ℝ).ub with
                             light_clr := ⟨19 / 20, 1, 1, 1⟩ } }
          vertices := [] } = .ok L1 ∧
      process (⟨Real.sin, Real.cos, Real.sqrt, Real.pi⟩ : CMath ℝ) L1 = .ok L2 ∧
      L2.state.ub.light_clr.x = 3 / 20 := by
  have T := clr_channel_wrap (⟨Real.sin, Real.cos, Real.sqrt, Real.pi⟩ : CMath ℝ)
      { state := { (State.init 1600 900 0 0 : State ℝ) with
                   dt := 200
                   keys := { (State.init 1600 900 0 0 : State ℝ).keys with red := true }
                   ub := { (State.init 1600 900 0 0 : State ℝ).ub with
                           light_clr := ⟨19 / 20, 1, 1, 1⟩ } }
        vertices := [] }
      (by show (0 : ℝ) ≤ clr_speed * 200; norm_num [clr_speed])
  obtain ⟨L1, L2, h1, h2⟩ := T.2.2.2.2.2 rfl rfl
  exact ⟨L1, L2, h1, h2, (T.2.2.2.1 rfl rfl
    (by show (clr_speed : ℝ) * 200 = 1 / 10; norm_num [clr_speed]) L1 L2 h1 h2).2⟩

/-! ## The mesh over the reals -/

/-- The circle point of numerator `k`, over the reals. -/
theorem circlePt_real (faces k : Int) :
    circlePt (⟨Real.sin, Real.cos, Real.sqrt, Real.pi⟩ : CMath ℝ) faces (k : ℝ) =
      ⟨Real.sin (2 * Real.pi * k / faces), Real.cos (2 * Real.pi * k / faces)⟩ := by
  unfold circlePt Vec2.smul radius
  have e : (k : ℝ) / (faces : ℝ) * 2 * Real.pi = 2 * Real.pi * k / faces := by ring
  simp only [one_mul, e]

/-- The cross product of the side loop, over the reals: `2 sin(pi/faces)` times the radial
direction at the mid-angle of the sector. -/
theorem sideCross_real (faces i : Int) (hf : (faces : ℝ) ≠ 0) :
    sideCross (⟨Real.sin, Real.cos, Real.sqrt, Real.pi⟩ : CMath ℝ) faces i =
      ⟨2 * Real.sin (Real.pi / faces) * Real.sin ((2 * i + 1) * Real.pi / faces), 0,
       2 * Real.sin (Real.pi / faces) * Real.cos ((2 * i + 1) * Real.pi / faces)⟩ := by
  have eA : 2 * Real.pi * (i : ℝ) / faces =
      (2 * i + 1) * Real.pi / faces - Real.pi / faces := by
    field_simp; ring
  have eB : 2 * Real.pi * ((i + 1 : Int) : ℝ) / faces =
      (2 * i + 1) * Real.pi / faces + Real.pi / faces := by
    push_cast; field_simp; ring
  unfold sideCross leftPt rightPt
  rw [circlePt_real, circlePt_real, eA, eB]
  simp only [Vec3.cross, Vec3.sub, top, bot, height, Real.sin_add, Real.sin_sub, Real.cos_add,
    Real.cos_sub]
  congr 1 <;> ring

/-- C8: over the reals, for `faces ≥ 3` and a sector `i < faces`, the cross product
`cross(leftTop - rightTop, leftBot - leftTop)` of the side loop has zero `y` component and a
strictly positive dot product with the radial direction `(sin m, 0, cos m)` at the mid-angle
`m = (2i+1)*pi/faces`; the normal `normalize(cross ...)` equals `(sin m, 0, cos m)`, and it is
the normal stored in the six vertices at indices `6i .. 6i+5` of the output. -/
theorem side_normal_outward (faces : Int) (i : Nat) (h : 3 ≤ faces) (h1 : (i : Int) < faces) :
    (sideCross (⟨Real.sin, Real.cos, Real.sqrt, Real.pi⟩ : CMath ℝ) faces i).y = 0 ∧
    0 < Vec3.dot (sideCross (⟨Real.sin, Real.cos, Real.sqrt, Real.pi⟩ : CMath ℝ) faces i)
      ⟨Real.sin ((2 * ((i : Int) : ℝ) + 1) * Real.pi / faces), 0,
       Real.cos ((2 * ((i : Int) : ℝ) + 1) * Real.pi / faces)⟩ ∧
    sideNorm (⟨Real.sin, Real.cos, Real.sqrt, Real.pi⟩ : CMath ℝ) faces i =
      ⟨Real.sin ((2 * ((i : Int) : ℝ) + 1) * Real.pi / faces), 0,
       Real.cos ((2 * ((i : Int) : ℝ) + 1) * Real.pi / faces)⟩ ∧
    (∀ k : Nat, k < 6 →
      ∃ v, (genVerts (⟨Real.sin, Real.cos, Real.sqrt, Real.pi⟩ : CMath ℝ) faces)[6 * i + k]?
          = some v ∧
        v.norm = ⟨Real.sin ((2 * ((i : Int) : ℝ) + 1) * Real.pi / faces), 0,
          Real.cos ((2 * ((i : Int) : ℝ) + 1) * Real.pi / faces)⟩) := by
  have hf3 : (3 : ℝ) ≤ faces := by exact_mod_cast h
  have hfpos : (0 : ℝ) < faces := by linarith
  have hf : (faces : ℝ) ≠ 0 := ne_of_gt hfpos
  have hs : 0 < Real.sin (Real.pi / faces) := by
    apply Real.sin_pos_of_pos_of_lt_pi
    · exact div_pos Real.pi_pos hfpos
    · rw [div_lt_iff₀ hfpos]
      nlinarith [Real.pi_pos]
  have hsc := Real.sin_sq_add_cos_sq ((2 * ((i : Int) : ℝ) + 1) * Real.pi / faces)
  have hc := sideCross_real faces i hf
  have hn : sideNorm (⟨Real.sin, Real.cos, Real.sqrt, Real.pi⟩ : CMath ℝ) faces i =
      ⟨Real.sin ((2 * ((i : Int) : ℝ) + 1) * Real.pi / faces), 0,
        Real.cos ((2 * ((i : Int) : ℝ) + 1) * Real.pi / faces)⟩ := by
    unfold sideNorm Vec3.normalize
    rw [hc]
    have hd : Vec3.dot
        (⟨2 * Real.sin (Real.pi / faces) *
            Real.sin ((2 * ((i : Int) : ℝ) + 1) * Real.pi / faces), 0,
          2 * Real.sin (Real.pi / faces) *
            Real.cos ((2 * ((i : Int) : ℝ) + 1) * Real.pi / faces)⟩ : Vec3 ℝ)
        ⟨2 * Real.sin (Real.pi / faces) *
            Real.sin ((2 * ((i : Int) : ℝ) + 1) * Real.pi / faces), 0,
          2 * Real.sin (Real.pi / faces) *
            Real.cos ((2 * ((i : Int) : ℝ) + 1) * Real.pi / faces)⟩ =
        (2 * Real.sin (Real.pi / faces)) ^ 2 := by
      simp only [Vec3.dot]
      linear_combination (2 * Real.sin (Real.pi / faces)) ^ 2 * hsc
    rw [hd]
    show Vec3.scale _ (1 / Real.sqrt ((2 * Real.sin (Real.pi / faces)) ^ 2)) = _
    rw [Real.sqrt_sq (by linarith)]
    simp only [Vec3.scale]
    congr 1
    · field_simp
    · simp
    · field_simp
  refine ⟨?_, ?_, hn, ?_⟩
  · rw [hc]
  · rw [hc]
    simp only [Vec3.dot]
    have : 2 * Real.sin (Real.pi / faces) *
        Real.sin ((2 * ((i : Int) : ℝ) + 1) * Real.pi / faces) *
        Real.sin ((2 * ((i : Int) : ℝ) + 1) * Real.pi / faces) + 0 * 0 +
        2 * Real.sin (Real.pi / faces) *
        Real.cos ((2 * ((i : Int) : ℝ) + 1) * Real.pi / faces) *
        Real.cos ((2 * ((i : Int) : ℝ) + 1) * Real.pi / faces) =
        2 * Real.sin (Real.pi / faces) := by
      linear_combination (2 * Real.sin (Real.pi / faces)) * hsc
    rw [this]
    linarith
  · intro k hk
    obtain ⟨v, hv, hvn⟩ := getElem?_genVerts_side
      (⟨Real.sin, Real.cos, Real.sqrt, Real.pi⟩ : CMath ℝ) faces i k h1 hk
    exact ⟨v, hv, hvn.trans hn⟩

/-- Witness of C8: the square prism, sector 0, whose normal is at the angle `pi/4`. -/
theorem side_normal_outward_witness :
    sideNorm (⟨Real.sin, Real.cos, Real.sqrt, Real.pi⟩ : CMath ℝ) 4 ((0 : Nat) : Int) =
      ⟨Real.sin ((2 * (((0 : Nat) : Int) : ℝ) + 1) * Real.pi / ((4 : Int) : ℝ)), 0,
       Real.cos ((2 * (((0 : Nat) : Int) : ℝ) + 1) * Real.pi / ((4 : Int) : ℝ))⟩ :=
  (side_normal_outward 4 0 (by decide) (by decide)).2.2.1

/-- A position built from the circle point of numerator `k`, at height `top` or `bot`, lies
on the unit circle at the angle `2*pi*k/faces` and at height `0.5` or `-0.5`. -/
theorem circle_vertex_real (faces k : Int) (y : ℝ) (hy : y = top ∨ y = bot)
    (h0 : 0 ≤ k) (h1 : k ≤ faces) (p : Vec3 ℝ)
    (hp : p = ⟨(circlePt (⟨Real.sin, Real.cos, Real.sqrt, Real.pi⟩ : CMath ℝ) faces (k : ℝ)).x,
      y, (circlePt (⟨Real.sin, Real.cos, Real.sqrt, Real.pi⟩ : CMath ℝ) faces (k : ℝ)).y⟩) :
    p.x ^ 2 + p.z ^ 2 = 1 ∧ (p.y = 1 / 2 ∨ p.y = -(1 / 2)) ∧
    ∃ k : Int, 0 ≤ k ∧ k ≤ faces ∧
      p.x = Real.sin (2 * Real.pi * k / faces) ∧ p.z = Real.cos (2 * Real.pi * k / faces) := by
  subst hp
  rw [circlePt_real]
  refine ⟨Real.sin_sq_add_cos_sq _, ?_, k, h0, h1, rfl, rfl⟩
  rcases hy with rfl | rfl
  · left; show (top : ℝ) = 1 / 2; unfold top height; norm_num
  · right; show (bot : ℝ) = -(1 / 2); unfold bot height; norm_num

/-- C9: over the reals, every vertex position `(x, y, z)` returned by `genVerts` satisfies
`x^2 + z^2 = 1` and `y = 0.5` or `y = -0.5`, and `(x, z)` is
`(sin(2*pi*k/faces), cos(2*pi*k/faces))` for an integer `0 ≤ k ≤ faces`.  This holds for
every `faces`, in particular for `faces ≥ 3`. -/
theorem genVerts_on_prism (faces : Int) :
    ∀ v ∈ genVerts (⟨Real.sin, Real.cos, Real.sqrt, Real.pi⟩ : CMath ℝ) faces,
      v.pos.x ^ 2 + v.pos.z ^ 2 = 1 ∧ (v.pos.y = 1 / 2 ∨ v.pos.y = -(1 / 2)) ∧
      ∃ k : Int, 0 ≤ k ∧ k ≤ faces ∧
        v.pos.x = Real.sin (2 * Real.pi * k / faces) ∧
        v.pos.z = Real.cos (2 * Real.pi * k / faces) := by
  intro v hv
  have z0 : ((0 : Int) : ℝ) = 0 := Int.cast_zero
  unfold genVerts at hv
  rw [List.mem_append, List.mem_append] at hv
  rcases hv with (hv | hv) | hv
  · obtain ⟨i, hi0, hi1, hv⟩ := (mem_forLoop _ _ _ _ (le_refl _) v).mp hv
    simp only [sideBody, List.mem_cons, List.mem_singleton, List.not_mem_nil, or_false] at hv
    rcases hv with rfl | rfl | rfl | rfl | rfl | rfl
    · exact circle_vertex_real faces (i + 1) top (Or.inl rfl) (by omega) (by omega) _ rfl
    · exact circle_vertex_real faces i top (Or.inl rfl) (by omega) (by omega) _ rfl
    · exact circle_vertex_real faces i bot (Or.inr rfl) (by omega) (by omega) _ rfl
    · exact circle_vertex_real faces i bot (Or.inr rfl) (by omega) (by omega) _ rfl
    · exact circle_vertex_real faces (i + 1) bot (Or.inr rfl) (by omega) (by omega) _ rfl
    · exact circle_vertex_real faces (i + 1) top (Or.inl rfl) (by omega) (by omega) _ rfl
  · obtain ⟨i, hi0, hi1, hv⟩ := (mem_forLoop _ _ _ _ (le_refl _) v).mp hv
    simp only [topBody, List.mem_cons, List.mem_singleton, List.not_mem_nil, or_false] at hv
    rcases hv with rfl | rfl | rfl
    · exact circle_vertex_real faces 0 top (Or.inl rfl) (by omega) (by omega) _
        (by unfold originPt mkVertex; rw [z0])
    · exact circle_vertex_real faces i top (Or.inl rfl) (by omega) (by omega) _ rfl
    · exact circle_vertex_real faces (i + 1) top (Or.inl rfl) (by omega) (by omega) _ rfl
  · obtain ⟨i, hi0, hi1, hv⟩ := (mem_forLoop _ _ _ _ (le_refl _) v).mp hv
    simp only [botBody, List.mem_cons, List.mem_singleton, List.not_mem_nil, or_false] at hv
    rcases hv with rfl | rfl | rfl
    · exact circle_vertex_real faces 0 bot (Or.inr rfl) (by omega) (by omega) _
        (by unfold originPt mkVertex; rw [z0])
    · exact circle_vertex_real faces (i + 1) bot (Or.inr rfl) (by omega) (by omega) _ rfl
    · exact circle_vertex_real faces i bot (Or.inr rfl) (by omega) (by omega) _ rfl

/-- Witness of C9: the first vertex pushed for the triangular prism lies on the unit
circle. -/
theorem genVerts_on_prism_witness :
    (mkVertex
      (⟨(rightPt (⟨Real.sin, Real.cos, Real.sqrt, Real.pi⟩ : CMath ℝ) 3 0).x, top,
        (rightPt (⟨Real.sin, Real.cos, Real.sqrt, Real.pi⟩ : CMath ℝ) 3 0).y⟩ : Vec3 ℝ)
      (sideNorm (⟨Real.sin, Real.cos, Real.sqrt, Real.pi⟩ : CMath ℝ) 3 0)).pos.x ^ 2 +
    (mkVertex
      (⟨(rightPt (⟨Real.sin, Real.cos, Real.sqrt, Real.pi⟩ : CMath ℝ) 3 0).x, top,
        (rightPt (⟨Real.sin, Real.cos, Real.sqrt, Real.pi⟩ : CMath ℝ) 3 0).y⟩ : Vec3 ℝ)
      (sideNorm (⟨Real.sin, Real.cos, Real.sqrt, Real.pi⟩ : CMath ℝ) 3 0)).pos.z ^ 2 = 1 :=
  (genVerts_on_prism 3 _
    (List.mem_append_left _ (List.mem_append_left _
      ((mem_forLoop 3 (sideBody ⟨Real.sin, Real.cos, Real.sqrt, Real.pi⟩ 3) _ 0 (le_refl _) _).mpr
        ⟨0, le_refl _, by decide, List.mem_cons_self _ _⟩)))).1

/-! ## Mouse buttons -/

/-- A CAM-mode update with the left button flagged, when `genVerts` throws: the update is left
by the exception with `faces` incremented and `left_click` still set. -/
theorem process_left_throw {α : Type} [LinearOrderedField α] [FloorRing α] (M : CMath α)
    (L : MainLoop α) (h : (tabStep L.state).mode = Mode.CAM)
    (hl : L.state.keys.left_click = true)
    (hg : genVertsCall M (wrapInt (L.state.faces + 1)) = none) :
    process M L = .error (leave (process M L)) ∧
    (leave (process M L)).state.faces = wrapInt (L.state.faces + 1) ∧
    (leave (process M L)).state.keys.left_click = true := by
  obtain ⟨p, hm⟩ := moveStep_eq M (tabStep L.state)
  have hf : (moveStep M (tabStep L.state)).faces = L.state.faces := by
    rw [hm]; exact (tabStep_rest L.state).1
  have hk : (moveStep M (tabStep L.state)).keys.left_click = true := by
    rw [hm]; show (tabStep L.state).keys.left_click = true
    rw [tabStep_keys]; exact hl
  have e := camCase_left_throw M { L with state := moveStep M (tabStep L.state) } hk
    (by show genVertsCall M (wrapInt ((moveStep M (tabStep L.state)).faces + 1)) = none
        rw [hf]; exact hg)
  rw [process_cam M L h, e]
  refine ⟨rfl, ?_, hk⟩
  show wrapInt ((moveStep M (tabStep L.state)).faces + 1) = _
  rw [hf]

/-- C10, as stated, fails: in CAM mode with the left button flagged and `faces = 178956971`
the update increments `faces` to 178956972 and calls `genVerts`, whose `reserve` argument
`12*178956972 - 12` wraps to a negative `int`; `reserve` throws, the update is left by the
exception and `left_click` is still set. -/
theorem click_consumed_once_refuted :
    (tabStep ({ (State.init 1600 900 0 0 : State ℝ) with
        faces := 178956971
        keys := { (State.init 1600 900 0 0 : State ℝ).keys with left_click := true } })).mode
      = Mode.CAM ∧
    reserveArg (178956971 + 1) < 0 ∧
    process (⟨Real.sin, Real.cos, Real.sqrt, Real.pi⟩ : CMath ℝ)
      { state := { (State.init 1600 900 0 0 : State ℝ) with
                   faces := 178956971
                   keys := { (State.init 1600 900 0 0 : State ℝ).keys with left_click := true } }
        vertices := [] } =
      .error (leave (process (⟨Real.sin, Real.cos, Real.sqrt, Real.pi⟩ : CMath ℝ)
        { state := { (State.init 1600 900 0 0 : State ℝ) with
                     faces := 178956971
                     keys := { (State.init 1600 900 0 0 : State ℝ).keys with
                               left_click := true } }
          vertices := [] })) ∧
    (leave (process (⟨Real.sin, Real.cos, Real.sqrt, Real.pi⟩ : CMath ℝ)
      { state := { (State.init 1600 900 0 0 : State ℝ) with
                   faces := 178956971
                   keys := { (State.init 1600 900 0 0 : State ℝ).keys with left_click := true } }
        vertices := [] })).state.faces = 178956972 ∧
    (leave (process (⟨Real.sin, Real.cos, Real.sqrt, Real.pi⟩ : CMath ℝ)
      { state := { (State.init 1600 900 0 0 : State ℝ) with
                   faces := 178956971
                   keys := { (State.init 1600 900 0 0 : State ℝ).keys with left_click := true } }
        vertices := [] })).state.keys.left_click = true := by
  have hr : reserveArg (178956971 + 1) < 0 := by decide
  have hg : genVertsCall (⟨Real.sin, Real.cos, Real.sqrt, Real.pi⟩ : CMath ℝ)
      (wrapInt (178956971 + 1)) = none := by
    have e : wrapInt (178956971 + 1) = 178956971 + 1 := by decide
    rw [e]
    unfold genVertsCall
    rw [if_pos hr]
  obtain ⟨h1, h2, h3⟩ := process_left_throw (⟨Real.sin, Real.cos, Real.sqrt, Real.pi⟩ : CMath ℝ)
      { state := { (State.init 1600 900 0 0 : State ℝ) with
                   faces := 178956971
                   keys := { (State.init 1600 900 0 0 : State ℝ).keys with left_click := true } }
        vertices := [] } rfl rfl hg
  exact ⟨rfl, hr, h1, h2.trans (by decide), h3⟩

/-- C10, amended: in CAM mode (after the tab block) with `left_click` set, `right_click`
clear and `0 ≤ faces ≤ 178956970`, so that `genVerts(vbo, faces + 1)` returns, one per-frame
update completes, yields `faces + 1` and clears `left_click`, and a following frame with no
input event completes and leaves `faces` unchanged; with `left_click` set and
`178956971 ≤ faces ≤ 357913941` the update is left by the exception of `genVerts`, with
`faces + 1` stored and `left_click` still set; a per-frame update that ends in LIGHT
mode completes, leaves `faces` and both click flags unchanged and changes `ambient_str` by
`+clr_speed*dt` for a held left button and by `-clr_speed*dt` for a held right button. -/
theorem click_consumed_once {α : Type} [LinearOrderedField α] [FloorRing α] (M : CMath α)
    (L : MainLoop α) :
    ((tabStep L.state).mode = Mode.CAM →
      L.state.keys.left_click = true → L.state.keys.right_click = false →
      0 ≤ L.state.faces → L.state.faces ≤ 178956970 →
      ∃ L1, process M L = .ok L1 ∧
        L1.state.faces = L.state.faces + 1 ∧
        L1.state.keys.left_click = false ∧
        ∀ ms : Int, ∃ L2, frame M ms [] L1 = .ok L2 ∧ L2.state.faces = L1.state.faces) ∧
    ((tabStep L.state).mode = Mode.CAM →
      L.state.keys.left_click = true →
      178956971 ≤ L.state.faces → L.state.faces ≤ 357913941 →
      process M L = .error (leave (process M L)) ∧
      (leave (process M L)).state.faces = L.state.faces + 1 ∧
      (leave (process M L)).state.keys.left_click = true) ∧
    ((leave (process M L)).state.mode = Mode.LIGHT →
      process M L = .ok (leave (process M L)) ∧
      (leave (process M L)).state.faces = L.state.faces ∧
      (leave (process M L)).state.keys.left_click = L.state.keys.left_click ∧
      (leave (process M L)).state.keys.right_click = L.state.keys.right_click ∧
      (leave (process M L)).state.ub.ambient_str =
        (if L.state.keys.right_click = true then
          (if L.state.keys.left_click = true then L.state.ub.ambient_str + clr_speed * L.state.dt
            else L.state.ub.ambient_str) - clr_speed * L.state.dt
        else
          (if L.state.keys.left_click = true then L.state.ub.ambient_str + clr_speed * L.state.dt
            else L.state.ub.ambient_str))) := by
  refine ⟨?_, ?_, ?_⟩
  · intro hm hl hr hlo hhi
    obtain ⟨p, hp⟩ := moveStep_eq M (tabStep L.state)
    have hf : (moveStep M (tabStep L.state)).faces = L.state.faces := by
      rw [hp]; exact (tabStep_rest L.state).1
    have hkl : (moveStep M (tabStep L.state)).keys.left_click = true := by
      rw [hp]; show (tabStep L.state).keys.left_click = true
      rw [tabStep_keys]; exact hl
    have hkr : (moveStep M (tabStep L.state)).keys.right_click = false := by
      rw [hp]; show (tabStep L.state).keys.right_click = false
      rw [tabStep_keys]; exact hr
    have e1 : wrapInt (L.state.faces + 1) = L.state.faces + 1 :=
      wrapInt_of_range _ (by omega) (by omega)
    have hC := camCase_left_ok M { L with state := moveStep M (tabStep L.state) } hkl hkr
      (genVerts M (L.state.faces + 1))
      (by show genVertsCall M (wrapInt ((moveStep M (tabStep L.state)).faces + 1)) = _
          rw [hf, e1]
          exact genVertsCall_of_range M _ (by omega) (by omega))
    have h1 : ∃ L1, process M L = .ok L1 := by
      rw [process_cam M L hm, hC]
      exact ⟨_, rfl⟩
    obtain ⟨L1, h1⟩ := h1
    have hfaces : L1.state.faces = L.state.faces + 1 := by
      rw [process_ok_faces M L L1 h1, hm]
      simp only [hl, hr, if_true, Bool.false_eq_true, if_false]
      exact e1
    have hkeys := process_ok_keys M L L1 h1
    rw [hm] at hkeys
    have hk1 : L1.state.keys.left_click = false := by rw [hkeys]
    have hk2 : L1.state.keys.right_click = false := by rw [hkeys]
    refine ⟨L1, h1, hfaces, hk1, ?_⟩
    intro ms
    obtain ⟨L2, h2⟩ := process_noclick M
      { L1 with state := { L1.state with dt := (ms : α) } } hk1 hk2
    refine ⟨L2, h2, ?_⟩
    rw [process_ok_faces M _ L2 h2]
    cases (tabStep ({ L1 with
          state := { L1.state with dt := (ms : α) } } : MainLoop α).state).mode
    · simp only [hk1, hk2, Bool.false_eq_true, if_false]
    · rfl
  · intro hm hl hlo hhi
    have e1 : wrapInt (L.state.faces + 1) = L.state.faces + 1 :=
      wrapInt_of_range _ (by omega) (by omega)
    have hg : genVertsCall M (wrapInt (L.state.faces + 1)) = none := by
      rw [e1]
      exact genVertsCall_throws M _ (by omega) (by omega)
    obtain ⟨h1, h2, h3⟩ := process_left_throw M L hm hl hg
    exact ⟨h1, h2.trans e1, h3⟩
  · intro hm
    rw [process_mode] at hm
    obtain ⟨h0, _, hf, hk, _, ha⟩ := process_light_fields M L hm
    refine ⟨h0, hf, ?_, ?_, ha⟩
    · rw [hk]
    · rw [hk]

/-- Witness of C10: the initial state with the left button flagged goes from 4 to 5 faces. -/
theorem click_consumed_once_witness :
    ∃ L1, process (⟨Real.sin, Real.cos, Real.sqrt, Real.pi⟩ : CMath ℝ)
      { state := { (State.init 1600 900 0 0 : State ℝ) with
                   keys := { (State.init 1600 900 0 0 : State ℝ).keys with left_click := true } }
        vertices := [] } = .ok L1 ∧ L1.state.faces = 4 + 1 ∧ L1.state.keys.left_click = false := by
  obtain ⟨L1, h1, h2, h3, _⟩ :=
    (click_consumed_once ⟨Real.sin, Real.cos, Real.sqrt, Real.pi⟩
      { state := { (State.init 1600 900 0 0 : State ℝ) with
                   keys := { (State.init 1600 900 0 0 : State ℝ).keys with left_click := true } }
        vertices := [] }).1 rfl rfl rfl (by decide) (by decide)
  exact ⟨L1, h1, h2, h3⟩

/-! ## The bottom cap -/

/-- The vertex at index `6*faces + 3*(faces-2) + 3j + k` of the output is the `k`-th vertex
pushed by iteration `j` of the bottom loop. -/
theorem getElem?_genVerts_bot {α : Type} [LinearOrderedField α] (M : CMath α) (faces : Int)
    (h : 3 ≤ faces) (j k : Nat) (hj : (j : Int) < faces - 1) (hk : k < 3) :
    (genVerts M faces)[(6 * faces + 3 * (faces - 2)).toNat + (3 * j + k)]? =
      (botBody M faces j)[k]? := by
  have hlen : (sideLoop M faces ++ topLoop M faces).length =
      (6 * faces + 3 * (faces - 2)).toNat := by
    rw [List.length_append, length_sideLoop, length_topLoop]
    unfold tripCount
    omega
  unfold genVerts
  rw [List.getElem?_append_right (by rw [hlen]; omega), hlen, Nat.add_sub_cancel_left]
  have e := getElem?_forLoop (faces - 1) (botBody M faces) 3 (fun _ => rfl)
    (tripCount 0 (faces - 1)) 0 (le_refl _) j k (by omega) hk
  rw [zero_add] at e
  exact e

/-- Two circle points with numerators in `[0, faces)` coincide only for equal numerators. -/
theorem circle_numerator_inj (faces k1 k2 : Int) (h1 : 0 ≤ k1) (h1' : k1 < faces)
    (h2 : 0 ≤ k2) (h2' : k2 < faces)
    (hs : Real.sin (2 * Real.pi * k1 / faces) = Real.sin (2 * Real.pi * k2 / faces))
    (hc : Real.cos (2 * Real.pi * k1 / faces) = Real.cos (2 * Real.pi * k2 / faces)) :
    k1 = k2 := by
  have hfpos : (0 : ℝ) < faces := by exact_mod_cast (lt_of_le_of_lt h1 h1')
  obtain ⟨n, hn⟩ := Real.Angle.angle_eq_iff_two_pi_dvd_sub.mp (Real.Angle.cos_sin_inj hc hs)
  have hpi : (2 * Real.pi) ≠ 0 := by positivity
  have e : ((k1 - k2 : Int) : ℝ) = ((n * faces : Int) : ℝ) := by
    push_cast
    have : 2 * Real.pi * ((k1 : ℝ) - k2) = 2 * Real.pi * (n * faces) := by
      field_simp at hn
      linarith
    exact mul_left_cancel₀ hpi this
  have e' : k1 - k2 = n * faces := by exact_mod_cast e
  have hn0 : n = 0 := by
    by_contra hne
    rcases lt_or_gt_of_ne hne with hneg | hpos
    · have : n * faces ≤ -1 * faces := by
        apply Int.mul_le_mul_of_nonneg_right (by omega) (by omega)
      omega
    · have : 1 * faces ≤ n * faces := by
        apply Int.mul_le_mul_of_nonneg_right (by omega) (by omega)
      omega
  rw [hn0, zero_mul] at e'
  omega

/-- The three vertices pushed by iteration `j` of the bottom loop, over the reals: the pivot
at angle 0, then the points at the angles `2*pi*(j+1)/faces` and `2*pi*j/faces`, all at
height `-0.5`. -/
theorem botBody_real (faces : Int) (j : Nat) :
    ∃ w0 w1 w2 : Vertex ℝ,
      botBody (⟨Real.sin, Real.cos, Real.sqrt, Real.pi⟩ : CMath ℝ) faces j = [w0, w1, w2] ∧
      w0.pos = ⟨0, -(1 / 2), 1⟩ ∧
      w1.pos = ⟨Real.sin (2 * Real.pi * ((j + 1 : Int) : ℝ) / faces), -(1 / 2),
        Real.cos (2 * Real.pi * ((j + 1 : Int) : ℝ) / faces)⟩ ∧
      w2.pos = ⟨Real.sin (2 * Real.pi * ((j : Int) : ℝ) / faces), -(1 / 2),
        Real.cos (2 * Real.pi * ((j : Int) : ℝ) / faces)⟩ := by
  have hb : (bot : ℝ) = -(1 / 2) := by unfold bot height; norm_num
  have ho : originPt (⟨Real.sin, Real.cos, Real.sqrt, Real.pi⟩ : CMath ℝ) faces = ⟨0, 1⟩ := by
    have := circlePt_real faces 0
    rw [Int.cast_zero] at this
    unfold originPt
    rw [this]
    simp
  refine ⟨_, _, _, rfl, ?_, ?_, ?_⟩
  · show (⟨_, _, _⟩ : Vec3 ℝ) = _
    rw [ho, hb]
  · show (⟨_, _, _⟩ : Vec3 ℝ) = _
    unfold rightPt
    rw [circlePt_real, hb]
  · show (⟨_, _, _⟩ : Vec3 ℝ) = _
    unfold leftPt
    rw [circlePt_real, hb]

/-- C11: over the reals, for `faces ≥ 3`, the first triangle pushed by the bottom loop
(iteration `i = 0`, output indices `6*faces + 3*(faces-2) .. +2`) has its first and third
vertices at the same position, the pivot `(0, -0.5, 1)` at angle 0, so the cross product of its
edge vectors is zero (zero area).  Of the `faces-1` triangles of the bottom loop, the one of
iteration `j` has three pairwise distinct corners exactly when `1 ≤ j`: these are `faces-2`
triangles, as many as the top loop pushes. -/
theorem bottom_extra_triangle_degenerate (faces : Int) (h : 3 ≤ faces) :
    (∃ v0 v1 v2 : Vertex ℝ,
      (genVerts (⟨Real.sin, Real.cos, Real.sqrt, Real.pi⟩ : CMath ℝ) faces)[
        (6 * faces + 3 * (faces - 2)).toNat]? = some v0 ∧
      (genVerts (⟨Real.sin, Real.cos, Real.sqrt, Real.pi⟩ : CMath ℝ) faces)[
        (6 * faces + 3 * (faces - 2)).toNat + 1]? = some v1 ∧
      (genVerts (⟨Real.sin, Real.cos, Real.sqrt, Real.pi⟩ : CMath ℝ) faces)[
        (6 * faces + 3 * (faces - 2)).toNat + 2]? = some v2 ∧
      v0.pos = ⟨0, -(1 / 2), 1⟩ ∧ v2.pos = v0.pos ∧
      Vec3.cross (Vec3.sub v1.pos v0.pos) (Vec3.sub v2.pos v0.pos) = ⟨0, 0, 0⟩) ∧
    (∀ j : Nat, (j : Int) < faces - 1 →
      ∃ w0 w1 w2 : Vertex ℝ,
        (genVerts (⟨Real.sin, Real.cos, Real.sqrt, Real.pi⟩ : CMath ℝ) faces)[
          (6 * faces + 3 * (faces - 2)).toNat + (3 * j + 0)]? = some w0 ∧
        (genVerts (⟨Real.sin, Real.cos, Real.sqrt, Real.pi⟩ : CMath ℝ) faces)[
          (6 * faces + 3 * (faces - 2)).toNat + (3 * j + 1)]? = some w1 ∧
        (genVerts (⟨Real.sin, Real.cos, Real.sqrt, Real.pi⟩ : CMath ℝ) faces)[
          (6 * faces + 3 * (faces - 2)).toNat + (3 * j + 2)]? = some w2 ∧
        w0.pos = ⟨0, -(1 / 2), 1⟩ ∧
        w1.pos = ⟨Real.sin (2 * Real.pi * ((j + 1 : Int) : ℝ) / faces), -(1 / 2),
          Real.cos (2 * Real.pi * ((j + 1 : Int) : ℝ) / faces)⟩ ∧
        w2.pos = ⟨Real.sin (2 * Real.pi * ((j : Int) : ℝ) / faces), -(1 / 2),
          Real.cos (2 * Real.pi * ((j : Int) : ℝ) / faces)⟩ ∧
        ((w0.pos ≠ w1.pos ∧ w1.pos ≠ w2.pos ∧ w0.pos ≠ w2.pos) ↔ 1 ≤ j)) ∧
    (Finset.Ico 1 (faces - 1).toNat).card = (faces - 2).toNat ∧
    (topLoop (⟨Real.sin, Real.cos, Real.sqrt, Real.pi⟩ : CMath ℝ) faces).length
      = 3 * (faces - 2).toNat ∧
    (botLoop (⟨Real.sin, Real.cos, Real.sqrt, Real.pi⟩ : CMath ℝ) faces).length
      = 3 * (faces - 1).toNat := by
  have tri : ∀ j : Nat, (j : Int) < faces - 1 →
      ∃ w0 w1 w2 : Vertex ℝ,
        (genVerts (⟨Real.sin, Real.cos, Real.sqrt, Real.pi⟩ : CMath ℝ) faces)[
          (6 * faces + 3 * (faces - 2)).toNat + (3 * j + 0)]? = some w0 ∧
        (genVerts (⟨Real.sin, Real.cos, Real.sqrt, Real.pi⟩ : CMath ℝ) faces)[
          (6 * faces + 3 * (faces - 2)).toNat + (3 * j + 1)]? = some w1 ∧
        (genVerts (⟨Real.sin, Real.cos, Real.sqrt, Real.pi⟩ : CMath ℝ) faces)[
          (6 * faces + 3 * (faces - 2)).toNat + (3 * j + 2)]? = some w2 ∧
        w0.pos = ⟨0, -(1 / 2), 1⟩ ∧
        w1.pos = ⟨Real.sin (2 * Real.pi * ((j + 1 : Int) : ℝ) / faces), -(1 / 2),
          Real.cos (2 * Real.pi * ((j + 1 : Int) : ℝ) / faces)⟩ ∧
        w2.pos = ⟨Real.sin (2 * Real.pi * ((j : Int) : ℝ) / faces), -(1 / 2),
          Real.cos (2 * Real.pi * ((j : Int) : ℝ) / faces)⟩ := by
    intro j hj
    obtain ⟨w0, w1, w2, hb, p0, p1, p2⟩ := botBody_real faces j
    refine ⟨w0, w1, w2, ?_, ?_, ?_, p0, p1, p2⟩
    · rw [getElem?_genVerts_bot _ faces h j 0 hj (by decide), hb]; rfl
    · rw [getElem?_genVerts_bot _ faces h j 1 hj (by decide), hb]; rfl
    · rw [getElem?_genVerts_bot _ faces h j 2 hj (by decide), hb]; rfl
  refine ⟨?_, ?_, ?_, ?_, ?_⟩
  · obtain ⟨w0, w1, w2, i0, i1, i2, p0, p1, p2⟩ := tri 0 (by omega)
    have p2' : w2.pos = ⟨0, -(1 / 2), 1⟩ := by
      rw [p2]
      simp
    refine ⟨w0, w1, w2, i0, i1, i2, p0, p2'.trans p0.symm, ?_⟩
    rw [p2', p0]
    simp [Vec3.cross, Vec3.sub]
  · intro j hj
    obtain ⟨w0, w1, w2, i0, i1, i2, p0, p1, p2⟩ := tri j hj
    refine ⟨w0, w1, w2, i0, i1, i2, p0, p1, p2, ?_⟩
    have p0' : w0.pos = ⟨Real.sin (2 * Real.pi * ((0 : Int) : ℝ) / faces), -(1 / 2),
        Real.cos (2 * Real.pi * ((0 : Int) : ℝ) / faces)⟩ := by
      rw [p0]
      simp
    constructor
    · rintro ⟨_, _, h02⟩
      by_contra hj0
      have hj0' : j = 0 := by omega
      apply h02
      rw [p0', p2, hj0']
      rfl
    · intro hj1
      rw [p0', p1, p2]
      refine ⟨?_, ?_, ?_⟩
      · intro e
        rw [Vec3.mk.injEq] at e
        have := circle_numerator_inj faces 0 (j + 1) (by omega) (by omega) (by omega)
          (by omega) e.1 e.2.2
        omega
      · intro e
        rw [Vec3.mk.injEq] at e
        have := circle_numerator_inj faces (j + 1) j (by omega) (by omega) (by omega)
          (by omega) e.1 e.2.2
        omega
      · intro e
        rw [Vec3.mk.injEq] at e
        have := circle_numerator_inj faces 0 j (by omega) (by omega) (by omega)
          (by omega) e.1 e.2.2
        omega
  · rw [Nat.card_Ico]
    omega
  · rw [length_topLoop]; unfold tripCount; omega
  · rw [length_botLoop]; unfold tripCount; omega

/-- Witness of C11: in the triangular prism the degenerate triangle sits at indices 21 to 23
and the pivot is at `(0, -0.5, 1)`. -/
theorem bottom_extra_triangle_degenerate_witness :
    ∃ v0 v1 v2 : Vertex ℝ,
      (genVerts (⟨Real.sin, Real.cos, Real.sqrt, Real.pi⟩ : CMath ℝ) 3)[
        (6 * (3 : Int) + 3 * ((3 : Int) - 2)).toNat]? = some v0 ∧
      (genVerts (⟨Real.sin, Real.cos, Real.sqrt, Real.pi⟩ : CMath ℝ) 3)[
        (6 * (3 : Int) + 3 * ((3 : Int) - 2)).toNat + 1]? = some v1 ∧
      (genVerts (⟨Real.sin, Real.cos, Real.sqrt, Real.pi⟩ : CMath ℝ) 3)[
        (6 * (3 : Int) + 3 * ((3 : Int) - 2)).toNat + 2]? = some v2 ∧
      v0.pos = ⟨0, -(1 / 2), 1⟩ ∧ v2.pos = v0.pos ∧
      Vec3.cross (Vec3.sub v1.pos v0.pos) (Vec3.sub v2.pos v0.pos) = ⟨0, 0, 0⟩ :=
  (bottom_extra_triangle_degenerate 3 (by decide)).1


end EngineAss2
